import Mathlib

/-!
# Verification of the dnt-yt cache/dedup coordination engine

A shallow embedding of the coordination core of the repository:

* `src/app/jobs.py` — key helpers (`k_media`, `k_lock`), metadata store
  (`store_media`, `get_media`), lock release (`release_lock`), the output
  resolver (`_pick_newest_nonempty`) and the retrieval job
  (`download_av_job`);
* `src/app/main.py` — the dedup coordinator (`ensure_cache_request`);
* `src/app/ytdlp_utils.py` — `build_watch_url`.

The Redis key-value store is modelled as a function from keys to optional
string values; `r.set(k, v, nx=True, ex=ttl)` is an atomic conditional set,
`r.delete` a plain delete.  Values stored under media keys are the JSON
texts produced by `json.dumps(payload, ensure_ascii=False)`; the JSON
serialization (a dict of string and integer fields, with the string
escaping rules of the CPython `json` encoder) and the matching
`json.loads` parse are embedded at the character level, so the metadata
round trip is proved about the actual wire format.

Concurrency for the dedup coordinator is modelled as an interleaving of
the atomic store operations of N callers of `ensure_cache_request`
(the small-step system `EnsureStep`); everything else is sequential, as in
the source.
-/

/-! ## Python string helpers -/

/-- The whitespace characters removed by Python `str.strip()`. -/
def isPyWs (c : Char) : Bool :=
  c = ' ' || c = '\t' || c = '\n' || c = '\r' || c = '\x0b' || c = '\x0c'

/-- Python `s.strip()`: remove leading and trailing whitespace. -/
def pyStrip (s : String) : String :=
  String.mk (((s.data.dropWhile isPyWs).reverse.dropWhile isPyWs).reverse)

/-! ## JSON values and the CPython `json` wire format

`store_media` serializes a dict whose values are strings and one integer
(`json.dumps(payload, ensure_ascii=False)`); `get_media` parses it back
(`json.loads`).  `JVal` is the value type of that payload grammar; the
encoder below reproduces the CPython encoder byte for byte on it
(default separators `", "` and `": "`, `ensure_ascii=False`, so only
`\`, `"` and control characters below 0x20 are escaped), and the parser
models `json.loads` restricted to the same grammar (objects of string and
integer fields, with insignificant whitespace). -/

/-- A JSON value of the payload grammar: a string or an integer. -/
inductive JVal where
  | vstr (s : String)
  | vint (n : Int)
deriving DecidableEq, Repr

/-- Hex digit character (lowercase), as CPython emits in `\u00xx` escapes. -/
def hexDigitChar (n : Nat) : Char :=
  match n with
  | 0 => '0' | 1 => '1' | 2 => '2' | 3 => '3' | 4 => '4'
  | 5 => '5' | 6 => '6' | 7 => '7' | 8 => '8' | 9 => '9'
  | 10 => 'a' | 11 => 'b' | 12 => 'c' | 13 => 'd' | 14 => 'e'
  | _ => 'f'

/-- The escape the CPython `json` encoder (`ensure_ascii=False`) applies to
one character: backslash and quote are backslash-escaped, the five control
characters with short names use them, other control characters below 0x20
become `\u00xx`, and every other character is emitted as itself. -/
def escapeChar (c : Char) : List Char :=
  if c = '\\' then ['\\', '\\']
  else if c = '"' then ['\\', '"']
  else if c = '\x08' then ['\\', 'b']
  else if c = '\t' then ['\\', 't']
  else if c = '\n' then ['\\', 'n']
  else if c = '\x0c' then ['\\', 'f']
  else if c = '\r' then ['\\', 'r']
  else if c.toNat < 32 then
    ['\\', 'u', '0', '0', hexDigitChar (c.toNat / 16), hexDigitChar (c.toNat % 16)]
  else [c]

/-- Escape every character of a string body. -/
def escapeList (cs : List Char) : List Char := cs.flatMap escapeChar

/-- A JSON string literal: quote, escaped body, quote. -/
def encodeJString (s : String) : List Char :=
  '"' :: (escapeList s.data ++ ['"'])

/-- Decimal digit character. -/
def digitChar (n : Nat) : Char :=
  match n with
  | 0 => '0' | 1 => '1' | 2 => '2' | 3 => '3' | 4 => '4'
  | 5 => '5' | 6 => '6' | 7 => '7' | 8 => '8' | _ => '9'

/-- Decimal digits of a natural number, most significant first
(fuel-indexed so that it is structural and kernel-computable). -/
def natDecimalAux : Nat → Nat → List Char
  | 0, _ => []
  | fuel + 1, n =>
    if n < 10 then [digitChar n]
    else natDecimalAux fuel (n / 10) ++ [digitChar (n % 10)]

/-- Decimal rendering of a natural number, as CPython prints an `int`. -/
def natDecimal (n : Nat) : List Char := natDecimalAux (n + 1) n

/-- Decimal rendering of an integer, as CPython prints an `int`. -/
def encodeJInt (n : Int) : List Char :=
  if n < 0 then '-' :: natDecimal n.natAbs else natDecimal n.natAbs

/-- Encoding of one JSON value of the payload grammar. -/
def encodeJVal : JVal → List Char
  | .vstr s => encodeJString s
  | .vint n => encodeJInt n

/-- The `", "`-separated body of a JSON object, one `"key": value` item per
field, in insertion order — `json.dumps` with its default separators. -/
def encodeFields : List (String × JVal) → List Char
  | [] => []
  | [(k, v)] => encodeJString k ++ ':' :: ' ' :: encodeJVal v
  | (k, v) :: rest =>
    encodeJString k ++ ':' :: ' ' :: encodeJVal v ++ ',' :: ' ' :: encodeFields rest

/-- A serialized JSON object: `\x7b` body `\x7d` (braces). -/
def encodeObj (fields : List (String × JVal)) : List Char :=
  '\x7b' :: (encodeFields fields ++ ['\x7d'])

/-- Is `c` a decimal digit? -/
def isDigitCh (c : Char) : Bool := 48 ≤ c.toNat && c.toNat ≤ 57

/-- Numeric value of a decimal digit character. -/
def digitVal (c : Char) : Nat := c.toNat - 48

/-- Numeric value of a hex digit character, as `json.loads` reads `\uXXXX`. -/
def hexVal (c : Char) : Option Nat :=
  if 48 ≤ c.toNat ∧ c.toNat ≤ 57 then some (c.toNat - 48)
  else if 97 ≤ c.toNat ∧ c.toNat ≤ 102 then some (c.toNat - 87)
  else if 65 ≤ c.toNat ∧ c.toNat ≤ 70 then some (c.toNat - 55)
  else none

/-- JSON whitespace skipped by `json.loads` between tokens. -/
def isJsonWs (c : Char) : Bool :=
  c = ' ' || c = '\t' || c = '\n' || c = '\r'

/-- Skip insignificant whitespace. -/
def skipWs (cs : List Char) : List Char := cs.dropWhile isJsonWs

/-- The character a short backslash escape stands for. -/
def unescapeChar (c : Char) : Option Char :=
  if c = '"' then some '"'
  else if c = '\\' then some '\\'
  else if c = '/' then some '/'
  else if c = 'b' then some '\x08'
  else if c = 'f' then some '\x0c'
  else if c = 'n' then some '\n'
  else if c = 'r' then some '\r'
  else if c = 't' then some '\t'
  else none

/-- Parse the body of a JSON string literal (after the opening quote) up to
and including the closing quote, decoding escapes as `json.loads` does.
Fuel-indexed (one unit per consumed escape or character) so that it is
structural and kernel-computable; callers pass the input length as fuel. -/
def parseStrBodyF : Nat → List Char → Option (List Char × List Char)
  | 0, _ => none
  | _ + 1, [] => none
  | fuel + 1, c :: rest =>
    if c = '"' then some ([], rest)
    else if c = '\\' then
      match rest with
      | [] => none
      | e :: rest2 =>
        if e = 'u' then
          match rest2 with
          | h1 :: h2 :: h3 :: h4 :: rest3 =>
            match hexVal h1, hexVal h2, hexVal h3, hexVal h4 with
            | some a, some b, some c2, some d =>
              match parseStrBodyF fuel rest3 with
              | some (s, r) => some (Char.ofNat (((a * 16 + b) * 16 + c2) * 16 + d) :: s, r)
              | none => none
            | _, _, _, _ => none
          | _ => none
        else
          match unescapeChar e with
          | some u =>
            match parseStrBodyF fuel rest2 with
            | some (s, r) => some (u :: s, r)
            | none => none
          | none => none
    else
      match parseStrBodyF fuel rest with
      | some (s, r) => some (c :: s, r)
      | none => none

/-- Parse a JSON string literal (opening quote included). -/
def parseJString (cs : List Char) : Option (String × List Char) :=
  match cs with
  | c :: rest =>
    if c = '"' then
      match parseStrBodyF rest.length rest with
      | some (s, r) => some (String.mk s, r)
      | none => none
    else none
  | [] => none

/-- Parse a maximal run of decimal digits. -/
def parseNatNum (cs : List Char) : Option (Nat × List Char) :=
  let ds := cs.takeWhile isDigitCh
  if ds.isEmpty then none
  else some (ds.foldl (fun a c => a * 10 + digitVal c) 0, cs.dropWhile isDigitCh)

/-- Parse a JSON integer (optional leading minus). -/
def parseJInt (cs : List Char) : Option (Int × List Char) :=
  match cs with
  | '-' :: rest =>
    match parseNatNum rest with
    | some (n, r) => some (-(n : Int), r)
    | none => none
  | _ =>
    match parseNatNum cs with
    | some (n, r) => some ((n : Int), r)
    | none => none

/-- Parse one JSON value of the payload grammar (string or integer),
leading whitespace allowed.  (On empty input both alternatives fail, so
that case is nothing directly.) -/
def parseJValue (cs : List Char) : Option (JVal × List Char) :=
  match skipWs cs with
  | c :: rest =>
    if c = '"' then
      match parseStrBodyF rest.length rest with
      | some (s, r) => some (.vstr (String.mk s), r)
      | none => none
    else
      match parseJInt (c :: rest) with
      | some (n, r) => some (.vint n, r)
      | none => none
  | [] => none

/-- Parse the fields of a JSON object, positioned after the opening brace
(or after a comma), up to and including the closing brace.  Fuel-indexed
(one unit per field). -/
def parseFieldsF : Nat → List Char → Option (List (String × JVal) × List Char)
  | 0, _ => none
  | fuel + 1, cs =>
    match parseJString (skipWs cs) with
    | none => none
    | some (k, cs1) =>
      match skipWs cs1 with
      | c :: cs2 =>
        if c = ':' then
          match parseJValue cs2 with
          | none => none
          | some (v, cs3) =>
            match skipWs cs3 with
            | c2 :: cs4 =>
              if c2 = ',' then
                match parseFieldsF fuel cs4 with
                | some (fs, r) => some ((k, v) :: fs, r)
                | none => none
              else if c2 = '\x7d' then some ([(k, v)], cs4)
              else none
            | [] => none
        else none
      | [] => none

/-- Parse a complete JSON object text, requiring full consumption, as
`json.loads` does on the texts `store_media` writes. -/
def parseObjText (s : String) : Option (List (String × JVal)) :=
  match skipWs s.data with
  | c :: rest =>
    if c = '\x7b' then
      match skipWs rest with
      | c2 :: rest2 =>
        if c2 = '\x7d' then (if (skipWs rest2).isEmpty then some [] else none)
        else
          match parseFieldsF (rest.length + 1) rest with
          | some (fs, r) => if (skipWs r).isEmpty then some fs else none
          | none => none
      | [] => none
    else none
  | [] => none

/-! ## The key-value store (Redis, `src/app/redis_client.py`)

A shared store from string keys to optional string values.  `r.set` with
`nx=True` is the atomic conditional set; TTLs are carried as data in the
operation traces (expiry itself is outside the modelled window). -/

/-- The shared Redis store: keys to optional raw values. -/
abbrev Store := String → Option String

/-- `r.set(k, v)`. -/
def Store.set (st : Store) (k v : String) : Store :=
  fun k2 => if k2 = k then some v else st k2

/-- `r.delete(k)`. -/
def Store.del (st : Store) (k : String) : Store :=
  fun k2 => if k2 = k then none else st k2

/-! ## Key helpers (`src/app/jobs.py`, lines 53-60) -/

/-- Redis key for cached media metadata (`k_media`, jobs.py line 55). -/
def k_media (video_id : String) : String := "yt:media:" ++ video_id

/-- Redis key for the enqueue lock (`k_lock`, jobs.py line 60). -/
def k_lock (video_id : String) : String := "yt:lock:" ++ video_id

/-- The lock key literal built inline by `ensure_cache_request`
(main.py line 124: the f-string `yt:lock:` followed by the video id),
kept as a separate definition so that its agreement with `k_lock`
is a theorem rather than a shared definition. -/
def mainLockKey (video_id : String) : String := "yt:lock:" ++ video_id

/-- Redis key for the last job id (main.py line 135). -/
def k_last_job (video_id : String) : String := "yt:last_job:" ++ video_id

/-! ## The metadata payload (`download_av_job`, jobs.py lines 208-214) -/

/-- The metadata record published by a completed retrieval job: the dict
literal of jobs.py lines 208-214, in insertion order. -/
structure MediaPayload where
  video_id : String
  watch_url : String
  video_path : String
  audio_path : String
  updated_at : Int
deriving DecidableEq, Repr

/-- The payload as the ordered field list `json.dumps` serializes. -/
def payloadFields (p : MediaPayload) : List (String × JVal) :=
  [("video_id", .vstr p.video_id),
   ("watch_url", .vstr p.watch_url),
   ("video_path", .vstr p.video_path),
   ("audio_path", .vstr p.audio_path),
   ("updated_at", .vint p.updated_at)]

/-- The serialized payload text, `json.dumps(payload, ensure_ascii=False)`. -/
def encodePayload (p : MediaPayload) : String :=
  String.mk (encodeObj (payloadFields p))

/-! ## Metadata store and lock release (`src/app/jobs.py`, lines 67-85) -/

/-- `store_media` (jobs.py lines 67-70): serialize the payload and set the
media key. -/
def store_media (video_id : String) (payload : MediaPayload) (st : Store) : Store :=
  st.set (k_media video_id) (encodePayload payload)

/-- `get_media` (jobs.py lines 73-79): read the media key; `None` (or an
empty value) yields nothing, otherwise the value is parsed with
`json.loads`.  A value that is not valid JSON cannot occur here — every
value written under a media key comes from `store_media` — and is modelled
as nothing. -/
def get_media (st : Store) (video_id : String) : Option (List (String × JVal)) :=
  match st (k_media video_id) with
  | none => none
  | some raw => if raw = "" then none else parseObjText raw

/-- `release_lock` (jobs.py lines 82-85): unconditionally delete the lock
key.  Redis `DELETE` of an absent key is a no-op and never an error, so the
model is a total function. -/
def release_lock (video_id : String) (st : Store) : Store :=
  st.del (k_lock video_id)

/-! ## Truthiness of the readiness check (main.py lines 115-116)

`media and media.get("video_path") and media.get("audio_path")`:
Python truthiness of a parsed JSON dict and of its two fields. -/

/-- Python truthiness of an optional field value: present, and a non-empty
string or a non-zero integer. -/
def truthyField : Option JVal → Bool
  | none => false
  | some (.vstr s) => !(s = "")
  | some (.vint n) => !(n = 0)

/-- The readiness check of `ensure_cache_request` (main.py lines 115-116):
the record exists, is a non-empty dict, and has truthy `video_path` and
`audio_path` fields.  `media.get` is modelled by `List.lookup` (the fields
written by `store_media` have pairwise distinct keys). -/
def mediaReady (st : Store) (video_id : String) : Bool :=
  match get_media st video_id with
  | none => false
  | some m =>
    !m.isEmpty && truthyField (List.lookup "video_path" m)
      && truthyField (List.lookup "audio_path" m)

/-! ## The dedup coordinator (`ensure_cache_request`, main.py lines 110-137) -/

/-- Lock TTL in seconds: `ex=600` at main.py line 125 (the comment there
reads: 10 minutes lock). -/
def lockTTLSeconds : Nat := 600

/-- Queue-level job timeout in seconds: `job_timeout=3600` at main.py
line 132. -/
def jobTimeoutSeconds : Nat := 3600

/-- TTL of the informational last-job key: `ex=3600` at main.py line 135. -/
def lastJobTTLSeconds : Nat := 3600

/-- Wall-clock timeout of each yt-dlp invocation: `timeout_seconds=1800`
at jobs.py lines 175 and 186. -/
def toolTimeoutSeconds : Nat := 1800

/-- One atomic store/queue operation performed by the coordinator, recorded
in order in an operation trace. -/
inductive KvOp where
  | getOp (k : String)
  | setnxOp (k v : String) (ttlSeconds : Nat) (won : Bool)
  | enqueueOp (jobFunc : String) (arg : String) (jobTimeout : Nat)
  | setOp (k v : String) (ttlSeconds : Nat)
deriving DecidableEq, Repr

/-- Result of one sequential `ensure_cache_request` call: the returned job
id (empty when nothing was submitted), the store afterwards, and the trace
of operations performed. -/
structure EnsureResult where
  ret : String
  store : Store
  ops : List KvOp

/-- `ensure_cache_request` (main.py lines 110-137), sequentially: read the
record; if ready, return the empty handle; otherwise atomically
set-if-absent the lock key with a 600 second TTL; on contention return the
empty handle; on acquisition enqueue `download_av_job` with a 3600 second
job timeout and record the job id (`jobId` is the queue-assigned id of the
job that would be created). -/
def ensure_cache_request (jobId : String) (video_id : String) (st : Store) : EnsureResult :=
  let readTrace := [KvOp.getOp (k_media video_id)]
  if mediaReady st video_id then
    ⟨"", st, readTrace⟩
  else
    match st (mainLockKey video_id) with
    | some _ =>
      ⟨"", st, readTrace ++ [KvOp.setnxOp (mainLockKey video_id) "1" lockTTLSeconds false]⟩
    | none =>
      let st1 := st.set (mainLockKey video_id) "1"
      let st2 := st1.set (k_last_job video_id) jobId
      ⟨jobId, st2,
        readTrace ++
          [KvOp.setnxOp (mainLockKey video_id) "1" lockTTLSeconds true,
           KvOp.enqueueOp "download_av_job" video_id jobTimeoutSeconds,
           KvOp.setOp (k_last_job video_id) jobId lastJobTTLSeconds]⟩

/-! ## The file system and the output resolver (`_pick_newest_nonempty`,
jobs.py lines 37-46) -/

/-- What `os.path` reports about one path: size and modification time of a
regular file, or nothing. -/
structure FileStat where
  size : Nat
  mtime : Nat
deriving DecidableEq, Repr

/-- The shared media directory as seen through `os.path`. -/
abbrev FileSystem := String → Option FileStat

/-- `os.path.isfile(p) and os.path.getsize(p) > 0`: the filter of
jobs.py line 42. -/
def isGoodFile (fs : FileSystem) (p : String) : Bool :=
  match fs p with
  | some st => decide (0 < st.size)
  | none => false

/-- `os.path.getmtime` on a path known to be a file (candidates are
filtered first, as in the source). -/
def mtimeOf (fs : FileSystem) (p : String) : Nat :=
  match fs p with
  | some st => st.mtime
  | none => 0

/-- `_pick_newest_nonempty` (jobs.py lines 37-46): keep the candidates that
exist with non-zero size, sort them by modification time newest first
(`sort(key=getmtime, reverse=True)` — a stable descending sort, modelled by
`List.mergeSort` whose merge keeps the left element on ties), and return
the first; nothing when no candidate survives. -/
def _pick_newest_nonempty (fs : FileSystem) (paths : List String) : Option String :=
  match (paths.filter (isGoodFile fs)).mergeSort
      (fun a b => decide (mtimeOf fs b ≤ mtimeOf fs a)) with
  | [] => none
  | p :: _ => some p

/-! ## The retrieval tool invocations (`download_av_job`, jobs.py
lines 92-232, and `run_ytdlp_download`, ytdlp_utils.py) -/

/-- `build_watch_url` (ytdlp_utils.py): the canonical source URL. -/
def build_watch_url (video_id : String) : String :=
  "https://www.youtube.com/watch?v=" ++ video_id

/-- The media root directory (jobs.py line 17; the environment default). -/
def MEDIA_ROOT : String := "/data"

/-- The video output template (jobs.py line 111): directory, id, kind,
tool-chosen extension placeholder. -/
def video_tpl (video_id : String) : String :=
  MEDIA_ROOT ++ "/" ++ video_id ++ ".video.%(ext)s"

/-- The audio output template (jobs.py line 112). -/
def audio_tpl (video_id : String) : String :=
  MEDIA_ROOT ++ "/" ++ video_id ++ ".audio.%(ext)s"

/-- The argv prefix shared by both invocations (jobs.py lines 117-131). -/
def ytdlpCommon : List String :=
  ["yt-dlp", "--no-playlist", "--force-ipv4", "--newline", "--no-continue",
   "--no-part", "--hls-prefer-native", "--retries", "5",
   "--fragment-retries", "5", "--retry-sleep", "1:3"]

/-- The video format-selection expression (jobs.py lines 138-143): an
ordered fallback chain separated by `/`. -/
def video_format : String :=
  "bestvideo[ext=mp4][vcodec^=avc1]/bestvideo[ext=mp4]/bestvideo[protocol^=m3u8]/bestvideo"

/-- The audio format-selection expression (jobs.py lines 159-163). -/
def audio_format : String :=
  "bestaudio[ext=m4a]/bestaudio[protocol^=m3u8]/bestaudio"

/-- The full argv of the video invocation (jobs.py lines 145-153). -/
def video_args (video_id : String) : List String :=
  ytdlpCommon ++
    ["-f", video_format, "-o", video_tpl video_id,
     "--write-subs", "--write-auto-subs", "--sub-format", "vtt",
     "--output-na-placeholder", "\"\"", build_watch_url video_id]

/-- The full argv of the audio invocation (jobs.py lines 165-169). -/
def audio_args (video_id : String) : List String :=
  ytdlpCommon ++
    ["-f", audio_format, "-o", audio_tpl video_id, build_watch_url video_id]

/-- What one blocking `subprocess.run` of yt-dlp produces: a completed
process with its exit status and captured streams, or a raised
`TimeoutExpired`. -/
inductive ToolOutcome where
  | completed (rc : Int) (out err : String)
  | timedOut
deriving DecidableEq, Repr

/-- The environment one job execution observes: the two tool outcomes, the
media directory contents at resolution time (a finite listing, and the
stat of each path), the clock readings, and the current queue job id. -/
structure JobEnv where
  videoOutcome : ToolOutcome
  audioOutcome : ToolOutcome
  fs : FileSystem
  dirListing : List String
  payloadTime : Int
  elapsedMs : Int
  jobId : Option String

/-- `glob.glob` of the video pattern (jobs.py line 197): the listed paths
with the `MEDIA_ROOT/<id>.video.` prefix (the `*` of the pattern matches
any, possibly empty, remainder of the filename). -/
def glob_video (env : JobEnv) (video_id : String) : List String :=
  env.dirListing.filter (·.startsWith (MEDIA_ROOT ++ "/" ++ video_id ++ ".video."))

/-- `glob.glob` of the audio pattern (jobs.py line 198). -/
def glob_audio (env : JobEnv) (video_id : String) : List String :=
  env.dirListing.filter (·.startsWith (MEDIA_ROOT ++ "/" ++ video_id ++ ".audio."))

/-- How a job fails: a raised `RuntimeError` with its message, or a
`TimeoutExpired` propagating out of `run_ytdlp_download`. -/
inductive JobError where
  | runtimeError (msg : String)
  | timeoutExpired
deriving DecidableEq, Repr

/-- The success dict returned by `download_av_job` (jobs.py lines 220-227). -/
structure JobSuccess where
  ok : Bool
  video_id : String
  job_id : Option String
  elapsed_ms : Int
  video_path : String
  audio_path : String
deriving DecidableEq, Repr

/-- `run_ytdlp_download` (ytdlp_utils.py): a blocking subprocess call that
either completes with `(returncode, stdout, stderr)` or raises
`TimeoutExpired` past its wall-clock bound. -/
def run_ytdlp_download (outcome : ToolOutcome) : Except JobError (Int × String × String) :=
  match outcome with
  | .completed rc out err => .ok (rc, out, err)
  | .timedOut => .error .timeoutExpired

/-- One side effect of a job execution, recorded in order. -/
inductive JobOp where
  | runTool (args : List String) (timeoutSeconds : Nat)
  | storeMediaOp (video_id : String) (payload : MediaPayload)
  | releaseLockOp (video_id : String)
deriving DecidableEq, Repr

/-- The observable outcome of one job execution: the returned dict or the
raised error, the store afterwards, and the ordered side effects. -/
structure JobOutcome where
  result : Except JobError JobSuccess
  store : Store
  ops : List JobOp

/-- The `try` body of `download_av_job` (jobs.py lines 171-227): download
video-only, fail on non-zero exit with a message carrying the stripped
stderr; download audio-only likewise; glob and resolve both outputs,
failing when either resolves to nothing; publish the metadata record and
return the success dict.  The error messages are the exact `RuntimeError`
strings of the source. -/
def jobBody (env : JobEnv) (video_id : String) (st : Store) :
    Except JobError JobSuccess × Store × List JobOp :=
  let watch_url := build_watch_url video_id
  let vops := [JobOp.runTool (video_args video_id) toolTimeoutSeconds]
  match run_ytdlp_download env.videoOutcome with
  | .error e => (.error e, st, vops)
  | .ok (rc_v, _out_v, err_v) =>
    if rc_v ≠ 0 then
      (.error (.runtimeError
        ("yt-dlp video download failed (rc=" ++ toString rc_v ++ "): " ++ pyStrip err_v)),
       st, vops)
    else
      let aops := vops ++ [JobOp.runTool (audio_args video_id) toolTimeoutSeconds]
      match run_ytdlp_download env.audioOutcome with
      | .error e => (.error e, st, aops)
      | .ok (rc_a, _out_a, err_a) =>
        if rc_a ≠ 0 then
          (.error (.runtimeError
            ("yt-dlp audio download failed (rc=" ++ toString rc_a ++ "): " ++ pyStrip err_a)),
           st, aops)
        else
          match _pick_newest_nonempty env.fs (glob_video env video_id) with
          | none =>
            (.error (.runtimeError "Video download finished but output file is missing or empty"),
             st, aops)
          | some video_path =>
            match _pick_newest_nonempty env.fs (glob_audio env video_id) with
            | none =>
              (.error (.runtimeError "Audio download finished but output file is missing or empty"),
               st, aops)
            | some audio_path =>
              let payload : MediaPayload :=
                ⟨video_id, watch_url, video_path, audio_path, env.payloadTime⟩
              (.ok ⟨true, video_id, env.jobId, env.elapsedMs, video_path, audio_path⟩,
               store_media video_id payload st,
               aops ++ [JobOp.storeMediaOp video_id payload])

/-- `download_av_job` (jobs.py lines 92-232): the `try` body wrapped in the
`finally` block that always releases the enqueue lock, on success, raised
failure and timeout alike. -/
def download_av_job (env : JobEnv) (video_id : String) (st : Store) : JobOutcome :=
  match jobBody env video_id st with
  | (res, st1, ops) => ⟨res, release_lock video_id st1, ops ++ [JobOp.releaseLockOp video_id]⟩

/-- The retrieval-tool invocations recorded in a job trace, in order. -/
def toolRuns (ops : List JobOp) : List (List String × Nat) :=
  ops.filterMap (fun op =>
    match op with
    | .runTool args t => some (args, t)
    | _ => none)

/-! ## Concurrent callers of `ensure_cache_request` (claim C1)

N callers run `ensure_cache_request` for the same identifier concurrently.
Each caller is a sequence of atomic store operations — the metadata read
(main.py line 114), the conditional set of the lock (line 125), the
enqueue (line 132) and the last-job set (line 135) — and the system is
the interleaving of those atomic steps over the shared store.  The job
itself is outside this window ("until that job's lock is released"): no
step writes the media key or deletes the lock. -/

/-- Program counter of one caller inside `ensure_cache_request`. -/
inductive PC where
  | pStart
  | pChecked
  | pWon
  | pEnqueued
  | pDone
deriving DecidableEq, Repr

/-- Local state of one caller: position, value it will return, and whether
its conditional set won the lock. -/
structure CallerSt where
  pc : PC
  ret : String
  won : Bool
deriving DecidableEq, Repr

/-- Global state: the shared store, the job queue (each entry tagged with
the caller that enqueued it), and the callers. -/
structure SysSt (n : Nat) where
  store : Store
  queue : List (Fin n)
  callers : Fin n → CallerSt

/-- One atomic step of one caller, for identifier `vid`; `jobIds i` is the
queue-assigned id of the job caller `i` would create.  The branches mirror
`ensure_cache_request` line by line. -/
inductive EnsureStep (vid : String) {n : Nat} (jobIds : Fin n → String) :
    SysSt n → SysSt n → Prop where
  | checkReady (s : SysSt n) (i : Fin n) :
      (s.callers i).pc = .pStart →
      mediaReady s.store vid = true →
      EnsureStep vid jobIds s
        ⟨s.store, s.queue, Function.update s.callers i ⟨.pDone, "", (s.callers i).won⟩⟩
  | checkNotReady (s : SysSt n) (i : Fin n) :
      (s.callers i).pc = .pStart →
      mediaReady s.store vid = false →
      EnsureStep vid jobIds s
        ⟨s.store, s.queue,
         Function.update s.callers i ⟨.pChecked, (s.callers i).ret, (s.callers i).won⟩⟩
  | lockWin (s : SysSt n) (i : Fin n) :
      (s.callers i).pc = .pChecked →
      s.store (mainLockKey vid) = none →
      EnsureStep vid jobIds s
        ⟨s.store.set (mainLockKey vid) "1", s.queue,
         Function.update s.callers i ⟨.pWon, (s.callers i).ret, true⟩⟩
  | lockLose (s : SysSt n) (i : Fin n) (v : String) :
      (s.callers i).pc = .pChecked →
      s.store (mainLockKey vid) = some v →
      EnsureStep vid jobIds s
        ⟨s.store, s.queue, Function.update s.callers i ⟨.pDone, "", (s.callers i).won⟩⟩
  | enqueue (s : SysSt n) (i : Fin n) :
      (s.callers i).pc = .pWon →
      EnsureStep vid jobIds s
        ⟨s.store, s.queue ++ [i],
         Function.update s.callers i ⟨.pEnqueued, (s.callers i).ret, (s.callers i).won⟩⟩
  | finish (s : SysSt n) (i : Fin n) :
      (s.callers i).pc = .pEnqueued →
      EnsureStep vid jobIds s
        ⟨s.store.set (k_last_job vid) (jobIds i), s.queue,
         Function.update s.callers i ⟨.pDone, jobIds i, (s.callers i).won⟩⟩

/-- The initial state: a given store, an empty queue, every caller at the
start. -/
def initSys (n : Nat) (st0 : Store) : SysSt n :=
  ⟨st0, [], fun _ => ⟨.pStart, "", false⟩⟩

/-- Reachability by interleaved atomic steps. -/
def ReachEnsure (vid : String) {n : Nat} (jobIds : Fin n → String) :
    SysSt n → SysSt n → Prop :=
  Relation.ReflTransGen (EnsureStep vid jobIds)

/-- The inductive invariant of the interleaved system, for an initial
store `st0` with no ready record and no lock:
the media key is never written; the lock key is only ever created, by a
winning conditional set; winners are unique; a caller that did not win
never passes the lock and finishes with the empty handle; the queue holds
exactly the enqueued winner. -/
def EnsureInv (vid : String) {n : Nat} (jobIds : Fin n → String) (st0 : Store)
    (s : SysSt n) : Prop :=
  (s.store (k_media vid) = st0 (k_media vid))
  ∧ (s.store (mainLockKey vid) = none → ∀ i, (s.callers i).won = false)
  ∧ (s.store (mainLockKey vid) ≠ none → ∃ i, (s.callers i).won = true)
  ∧ (∀ i j, (s.callers i).won = true → (s.callers j).won = true → i = j)
  ∧ (∀ i, (s.callers i).won = false →
      (s.callers i).pc ≠ .pWon ∧ (s.callers i).pc ≠ .pEnqueued
        ∧ ((s.callers i).pc = .pDone → (s.callers i).ret = ""))
  ∧ (∀ i, (s.callers i).won = true →
      ((s.callers i).pc = .pWon ∨ (s.callers i).pc = .pEnqueued ∨ (s.callers i).pc = .pDone)
        ∧ ((s.callers i).pc = .pDone → (s.callers i).ret = jobIds i))
  ∧ ((s.queue = [] ∧ ∀ i, ¬((s.callers i).won = true
        ∧ ((s.callers i).pc = .pEnqueued ∨ (s.callers i).pc = .pDone)))
      ∨ (∃ i, (s.callers i).won = true
          ∧ ((s.callers i).pc = .pEnqueued ∨ (s.callers i).pc = .pDone)
          ∧ s.queue = [i]))
  ∧ (∀ i, (s.callers i).pc = .pDone → (s.callers i).won = false →
      s.store (mainLockKey vid) ≠ none)

/-! ## Theorems

Helper lemmas first (key distinctness, serialization round trip, resolver
and job characterizations), then one theorem per claim, each preceded by a
doc comment naming the claim. -/

theorem length_k_media (vid : String) : (k_media vid).length = 9 + vid.length := by
  have h : ("yt:media:").length = 9 := by decide
  rw [k_media, String.length_append, h]

theorem length_k_lock (vid : String) : (k_lock vid).length = 8 + vid.length := by
  have h : ("yt:lock:").length = 8 := by decide
  rw [k_lock, String.length_append, h]

theorem length_mainLockKey (vid : String) : (mainLockKey vid).length = 8 + vid.length := by
  have h : ("yt:lock:").length = 8 := by decide
  rw [mainLockKey, String.length_append, h]

theorem length_k_last_job (vid : String) : (k_last_job vid).length = 12 + vid.length := by
  have h : ("yt:last_job:").length = 12 := by decide
  rw [k_last_job, String.length_append, h]

theorem k_media_ne_k_lock (vid : String) : k_media vid ≠ k_lock vid := by
  intro h
  have h2 := congrArg String.length h
  rw [length_k_media, length_k_lock] at h2
  omega

theorem k_media_ne_mainLockKey (vid : String) : k_media vid ≠ mainLockKey vid := by
  intro h
  have h2 := congrArg String.length h
  rw [length_k_media, length_mainLockKey] at h2
  omega

theorem k_media_ne_k_last_job (vid : String) : k_media vid ≠ k_last_job vid := by
  intro h
  have h2 := congrArg String.length h
  rw [length_k_media, length_k_last_job] at h2
  omega

theorem mainLockKey_ne_k_last_job (vid : String) : mainLockKey vid ≠ k_last_job vid := by
  intro h
  have h2 := congrArg String.length h
  rw [length_mainLockKey, length_k_last_job] at h2
  omega

/-- C10: the lock key string written by the coordinator's acquisition (the
literal `yt:lock:` + identifier inlined in `ensure_cache_request`,
main.py lines 124-125) equals the key string deleted by the job's
`release_lock` (built via `k_lock`, jobs.py lines 58-60 and 82-85), so the
job's cleanup deletes exactly the key the coordinator set. -/
theorem yt_c10_lock_key_agreement (vid : String) (st : Store) :
    mainLockKey vid = k_lock vid
      ∧ (release_lock vid st) (mainLockKey vid) = none := by
  constructor
  · rfl
  · simp [release_lock, Store.del, mainLockKey, k_lock]

/-- C4 counterexample: the claim says the lock TTL used at acquisition
(600 s, main.py line 125) exceeds the job-level timeout supplied at
enqueue (3600 s, main.py line 132); it does not. -/
theorem yt_c4_counterexample : ¬ (jobTimeoutSeconds < lockTTLSeconds) := by decide

/-- C4 amended: in the acquisition path of `ensure_cache_request` the lock
is created with TTL `lockTTLSeconds` = 600 and the job enqueued with
timeout `jobTimeoutSeconds` = 3600, and the lock TTL is strictly SMALLER
than the job timeout — a legitimately running job that outlives 10 minutes
is no longer protected by its lock. -/
theorem yt_c4_ttl_below_job_timeout (jobId vid : String) (st : Store)
    (hlock : st (mainLockKey vid) = none)
    (hready : mediaReady st vid = false) :
    (ensure_cache_request jobId vid st).ops =
      [KvOp.getOp (k_media vid),
       KvOp.setnxOp (mainLockKey vid) "1" lockTTLSeconds true,
       KvOp.enqueueOp "download_av_job" vid jobTimeoutSeconds,
       KvOp.setOp (k_last_job vid) jobId lastJobTTLSeconds]
      ∧ lockTTLSeconds < jobTimeoutSeconds := by
  refine ⟨?_, by decide⟩
  simp [ensure_cache_request, hready, hlock]

/-- C4 witness: the amended theorem at a concrete empty store. -/
theorem yt_c4_ttl_below_job_timeout_witness :
    (ensure_cache_request "job-1" "abc12345678" (fun _ => none)).ops =
      [KvOp.getOp (k_media "abc12345678"),
       KvOp.setnxOp (mainLockKey "abc12345678") "1" lockTTLSeconds true,
       KvOp.enqueueOp "download_av_job" "abc12345678" jobTimeoutSeconds,
       KvOp.setOp (k_last_job "abc12345678") "job-1" lastJobTTLSeconds]
      ∧ lockTTLSeconds < jobTimeoutSeconds :=
  yt_c4_ttl_below_job_timeout "job-1" "abc12345678" (fun _ => none) rfl rfl

/-- Every execution of `download_av_job` produces one of three op traces:
video invocation then release (video failed or timed out); both
invocations then release (audio failed, timed out, or an output did not
resolve); or both invocations, the metadata publication, then release. -/
theorem job_ops_shape (env : JobEnv) (vid : String) (st : Store) :
    (download_av_job env vid st).ops
        = [JobOp.runTool (video_args vid) toolTimeoutSeconds,
           JobOp.releaseLockOp vid]
      ∨ (download_av_job env vid st).ops
        = [JobOp.runTool (video_args vid) toolTimeoutSeconds,
           JobOp.runTool (audio_args vid) toolTimeoutSeconds,
           JobOp.releaseLockOp vid]
      ∨ ∃ p, (download_av_job env vid st).ops
        = [JobOp.runTool (video_args vid) toolTimeoutSeconds,
           JobOp.runTool (audio_args vid) toolTimeoutSeconds,
           JobOp.storeMediaOp vid p,
           JobOp.releaseLockOp vid] := by
  rcases hj : jobBody env vid st with ⟨res, st1, ops⟩
  have hops :
      ops = [JobOp.runTool (video_args vid) toolTimeoutSeconds]
        ∨ ops = [JobOp.runTool (video_args vid) toolTimeoutSeconds,
                 JobOp.runTool (audio_args vid) toolTimeoutSeconds]
        ∨ ∃ p, ops = [JobOp.runTool (video_args vid) toolTimeoutSeconds,
                 JobOp.runTool (audio_args vid) toolTimeoutSeconds,
                 JobOp.storeMediaOp vid p] := by
    rw [jobBody] at hj
    rcases hv : env.videoOutcome with ⟨rc_v, out_v, err_v⟩ | _
    · rw [hv] at hj
      simp only [run_ytdlp_download] at hj
      by_cases hrc : rc_v ≠ 0
      · rw [if_pos hrc] at hj
        exact Or.inl (congrArg (fun t => t.2.2) hj).symm
      · rw [if_neg hrc] at hj
        rcases ha : env.audioOutcome with ⟨rc_a, out_a, err_a⟩ | _
        · rw [ha] at hj
          simp only [run_ytdlp_download] at hj
          by_cases hrca : rc_a ≠ 0
          · rw [if_pos hrca] at hj
            refine Or.inr (Or.inl ?_)
            simpa using (congrArg (fun t => t.2.2) hj).symm
          · rw [if_neg hrca] at hj
            rcases hpv : _pick_newest_nonempty env.fs (glob_video env vid) with _ | vp
            · rw [hpv] at hj
              refine Or.inr (Or.inl ?_)
              simpa using (congrArg (fun t => t.2.2) hj).symm
            · rw [hpv] at hj
              rcases hpa : _pick_newest_nonempty env.fs (glob_audio env vid) with _ | ap
              · rw [hpa] at hj
                refine Or.inr (Or.inl ?_)
                simpa using (congrArg (fun t => t.2.2) hj).symm
              · rw [hpa] at hj
                refine Or.inr (Or.inr ⟨⟨vid, build_watch_url vid, vp, ap, env.payloadTime⟩, ?_⟩)
                simpa using (congrArg (fun t => t.2.2) hj).symm
        · rw [ha] at hj
          simp only [run_ytdlp_download] at hj
          refine Or.inr (Or.inl ?_)
          simpa using (congrArg (fun t => t.2.2) hj).symm
    · rw [hv] at hj
      simp only [run_ytdlp_download] at hj
      exact Or.inl (congrArg (fun t => t.2.2) hj).symm
  have hdl : (download_av_job env vid st).ops = ops ++ [JobOp.releaseLockOp vid] := by
    rw [download_av_job, hj]
  rcases hops with h | h | ⟨p, h⟩
  · exact Or.inl (by rw [hdl, h]; rfl)
  · exact Or.inr (Or.inl (by rw [hdl, h]; rfl))
  · exact Or.inr (Or.inr ⟨p, by rw [hdl, h]; rfl⟩)

/-- C5 counterexample: the claim says the queue-level job timeout (3600 s,
main.py line 132) is strictly greater than the sum of the wall-clock
timeouts of the two tool invocations (1800 s + 1800 s, jobs.py
lines 175 and 186); it is exactly equal, not strictly greater. -/
theorem yt_c5_counterexample :
    ¬ (toolTimeoutSeconds + toolTimeoutSeconds < jobTimeoutSeconds) := by decide

/-- C5 amended: every tool invocation a job performs is bounded by
`toolTimeoutSeconds` = 1800, every job the coordinator enqueues carries
the queue-level timeout `jobTimeoutSeconds` = 3600, and the job timeout
EQUALS the sum of the two tool timeouts (it is not strictly greater). -/
theorem yt_c5_job_timeout_equals_sum (env : JobEnv) (jobId vid : String) (st : Store) :
    (∀ args t, JobOp.runTool args t ∈ (download_av_job env vid st).ops →
      t = toolTimeoutSeconds)
      ∧ (∀ f a t, KvOp.enqueueOp f a t ∈ (ensure_cache_request jobId vid st).ops →
          t = jobTimeoutSeconds)
      ∧ jobTimeoutSeconds = toolTimeoutSeconds + toolTimeoutSeconds := by
  refine ⟨?_, ?_, by decide⟩
  · intro args t hmem
    rcases job_ops_shape env vid st with h | h | ⟨p, h⟩ <;> rw [h] at hmem <;>
      simp at hmem <;> tauto
  · intro f a t hmem
    rw [ensure_cache_request] at hmem
    by_cases hr : mediaReady st vid
    · rw [if_pos hr] at hmem
      simp at hmem
    · rw [if_neg hr] at hmem
      rcases hl : st (mainLockKey vid) with _ | v <;> rw [hl] at hmem <;> simp at hmem
      exact hmem.2.2

/-- C8: `release_lock` unconditionally deletes the lock key (and nothing
else), is a no-op (never an error — it is a total function) when the lock
is absent, and `download_av_job` deletes the lock key on every exit path —
success, raised failure and timeout alike — with the release recorded as
the final operation of every trace. -/
theorem yt_c8_release_always (vid k : String) (st : Store) (env : JobEnv) :
    (release_lock vid st) (k_lock vid) = none
      ∧ (k ≠ k_lock vid → (release_lock vid st) k = st k)
      ∧ (st (k_lock vid) = none → release_lock vid st = st)
      ∧ (download_av_job env vid st).store (k_lock vid) = none
      ∧ (download_av_job env vid st).ops.getLast? = some (JobOp.releaseLockOp vid) := by
  refine ⟨?_, ?_, ?_, ?_, ?_⟩
  · simp [release_lock, Store.del]
  · intro h
    simp [release_lock, Store.del, h]
  · intro h
    funext k2
    by_cases hk : k2 = k_lock vid
    · rw [hk]
      simp [release_lock, Store.del, h]
    · simp [release_lock, Store.del, hk]
  · rcases hj : jobBody env vid st with ⟨res, st1, ops⟩
    have : (download_av_job env vid st).store = release_lock vid st1 := by
      rw [download_av_job, hj]
    rw [this]
    simp [release_lock, Store.del]
  · rcases hj : jobBody env vid st with ⟨res, st1, ops⟩
    have : (download_av_job env vid st).ops = ops ++ [JobOp.releaseLockOp vid] := by
      rw [download_av_job, hj]
    rw [this]
    simp

/-- C3: a job whose video invocation returns a non-zero exit status fails
with the exact `RuntimeError` message of jobs.py lines 179-181 — which
carries the stripped stderr of the tool — publishes no metadata record
(no `store_media` call appears in its trace, and the media key is left
unchanged), and still deletes the lock key on that exit path. -/
theorem yt_c3_video_failure_no_publish (env : JobEnv) (vid : String) (st : Store)
    (rc : Int) (out err : String)
    (hv : env.videoOutcome = .completed rc out err) (hrc : rc ≠ 0) :
    (download_av_job env vid st).result =
      .error (.runtimeError
        ("yt-dlp video download failed (rc=" ++ toString rc ++ "): " ++ pyStrip err))
      ∧ (∀ v p, JobOp.storeMediaOp v p ∉ (download_av_job env vid st).ops)
      ∧ (download_av_job env vid st).store (k_media vid) = st (k_media vid)
      ∧ (download_av_job env vid st).store (k_lock vid) = none := by
  have hbody : jobBody env vid st =
      (.error (.runtimeError
        ("yt-dlp video download failed (rc=" ++ toString rc ++ "): " ++ pyStrip err)),
       st, [JobOp.runTool (video_args vid) toolTimeoutSeconds]) := by
    rw [jobBody, hv]
    simp only [run_ytdlp_download]
    rw [if_pos hrc]
  have hdl : download_av_job env vid st =
      ⟨.error (.runtimeError
        ("yt-dlp video download failed (rc=" ++ toString rc ++ "): " ++ pyStrip err)),
       release_lock vid st,
       [JobOp.runTool (video_args vid) toolTimeoutSeconds, JobOp.releaseLockOp vid]⟩ := by
    rw [download_av_job, hbody]
    rfl
  refine ⟨?_, ?_, ?_, ?_⟩
  · rw [hdl]
  · intro v p
    rw [hdl]
    simp
  · rw [hdl]
    simp [release_lock, Store.del, k_media_ne_k_lock vid]
  · rw [hdl]
    simp [release_lock, Store.del]

/-- C3 witness: a concrete failing video invocation (exit status 1, stderr
`boom`) against an empty store. -/
theorem yt_c3_video_failure_no_publish_witness :
    (download_av_job
        ⟨.completed 1 "" "  boom\n", .completed 0 "" "", fun _ => none, [], 0, 0, none⟩
        "abc12345678" (fun _ => none)).result =
      .error (.runtimeError
        ("yt-dlp video download failed (rc=" ++ toString (1 : Int) ++ "): "
          ++ pyStrip "  boom\n"))
      ∧ (∀ v p, JobOp.storeMediaOp v p ∉
          (download_av_job
            ⟨.completed 1 "" "  boom\n", .completed 0 "" "", fun _ => none, [], 0, 0, none⟩
            "abc12345678" (fun _ => none)).ops)
      ∧ (download_av_job
          ⟨.completed 1 "" "  boom\n", .completed 0 "" "", fun _ => none, [], 0, 0, none⟩
          "abc12345678" (fun _ => none)).store (k_media "abc12345678")
        = (fun _ => none : Store) (k_media "abc12345678")
      ∧ (download_av_job
          ⟨.completed 1 "" "  boom\n", .completed 0 "" "", fun _ => none, [], 0, 0, none⟩
          "abc12345678" (fun _ => none)).store (k_lock "abc12345678") = none :=
  yt_c3_video_failure_no_publish
    ⟨.completed 1 "" "  boom\n", .completed 0 "" "", fun _ => none, [], 0, 0, none⟩
    "abc12345678" (fun _ => none) 1 "" "  boom\n" rfl (by decide)

/-- When the video invocation completes with exit status 0, the job always
performs the audio invocation too: its trace holds exactly the two tool
runs, video first, audio second. -/
theorem job_runs_of_video_ok (env : JobEnv) (vid : String) (st : Store)
    (out err : String) (hv : env.videoOutcome = .completed 0 out err) :
    toolRuns (download_av_job env vid st).ops =
      [(video_args vid, toolTimeoutSeconds), (audio_args vid, toolTimeoutSeconds)] := by
  rcases hj : jobBody env vid st with ⟨res, st1, ops⟩
  have hops : ops = [JobOp.runTool (video_args vid) toolTimeoutSeconds,
                 JobOp.runTool (audio_args vid) toolTimeoutSeconds]
        ∨ ∃ p, ops = [JobOp.runTool (video_args vid) toolTimeoutSeconds,
                 JobOp.runTool (audio_args vid) toolTimeoutSeconds,
                 JobOp.storeMediaOp vid p] := by
    rw [jobBody, hv] at hj
    simp only [run_ytdlp_download] at hj
    rw [if_neg (by simp : ¬ ((0 : Int) ≠ 0))] at hj
    rcases ha : env.audioOutcome with ⟨rc_a, out_a, err_a⟩ | _
    · rw [ha] at hj
      simp only [run_ytdlp_download] at hj
      by_cases hrca : rc_a ≠ 0
      · rw [if_pos hrca] at hj
        refine Or.inl ?_
        simpa using (congrArg (fun t => t.2.2) hj).symm
      · rw [if_neg hrca] at hj
        rcases hpv : _pick_newest_nonempty env.fs (glob_video env vid) with _ | vp
        · rw [hpv] at hj
          refine Or.inl ?_
          simpa using (congrArg (fun t => t.2.2) hj).symm
        · rw [hpv] at hj
          rcases hpa : _pick_newest_nonempty env.fs (glob_audio env vid) with _ | ap
          · rw [hpa] at hj
            refine Or.inl ?_
            simpa using (congrArg (fun t => t.2.2) hj).symm
          · rw [hpa] at hj
            refine Or.inr ⟨⟨vid, build_watch_url vid, vp, ap, env.payloadTime⟩, ?_⟩
            simpa using (congrArg (fun t => t.2.2) hj).symm
    · rw [ha] at hj
      simp only [run_ytdlp_download] at hj
      refine Or.inl ?_
      simpa using (congrArg (fun t => t.2.2) hj).symm
  have hdl : (download_av_job env vid st).ops = ops ++ [JobOp.releaseLockOp vid] := by
    rw [download_av_job, hj]
  rcases hops with h | ⟨p, h⟩ <;> rw [hdl, h] <;> rfl

/-- C9 counterexample: the claim says both format-selection expressions
are four-step fallback chains; the audio chain (jobs.py lines 159-163)
has three steps, not four. -/
theorem yt_c9_counterexample : ¬ ((audio_format.data.splitOn '/').length = 4) := by decide

/-- C9 amended: every job invokes the retrieval tool at most twice and in
order — video-only first, then audio-only, sequentially, each bounded by
the same wall-clock timeout — performing exactly the two invocations
whenever the video invocation exits 0; each invocation passes an output
template `<directory>/<identifier>.<kind>.%(ext)s` (tool-chosen extension)
and a format-selection expression that is an ordered fallback chain; the
VIDEO chain has the four claimed steps (specific codec+container, any
matching container, adaptive-streaming variant, unconstrained best), while
the AUDIO chain has three steps (specific container, adaptive-streaming
variant, unconstrained best). -/
theorem yt_c9_two_sequential_invocations (env : JobEnv) (vid : String) (st : Store) :
    (toolRuns (download_av_job env vid st).ops = [(video_args vid, toolTimeoutSeconds)]
      ∨ toolRuns (download_av_job env vid st).ops
        = [(video_args vid, toolTimeoutSeconds), (audio_args vid, toolTimeoutSeconds)])
      ∧ (∀ out err, env.videoOutcome = .completed 0 out err →
          toolRuns (download_av_job env vid st).ops
            = [(video_args vid, toolTimeoutSeconds), (audio_args vid, toolTimeoutSeconds)])
      ∧ video_args vid = ytdlpCommon ++
          ["-f", video_format, "-o", video_tpl vid,
           "--write-subs", "--write-auto-subs", "--sub-format", "vtt",
           "--output-na-placeholder", "\"\"", build_watch_url vid]
      ∧ audio_args vid = ytdlpCommon ++
          ["-f", audio_format, "-o", audio_tpl vid, build_watch_url vid]
      ∧ video_tpl vid = MEDIA_ROOT ++ "/" ++ vid ++ ".video.%(ext)s"
      ∧ audio_tpl vid = MEDIA_ROOT ++ "/" ++ vid ++ ".audio.%(ext)s"
      ∧ video_format.data.splitOn '/' =
          ["bestvideo[ext=mp4][vcodec^=avc1]".data, "bestvideo[ext=mp4]".data,
           "bestvideo[protocol^=m3u8]".data, "bestvideo".data]
      ∧ audio_format.data.splitOn '/' =
          ["bestaudio[ext=m4a]".data, "bestaudio[protocol^=m3u8]".data,
           "bestaudio".data] := by
  refine ⟨?_, ?_, rfl, rfl, rfl, rfl, by decide, by decide⟩
  · rcases job_ops_shape env vid st with h | h | ⟨p, h⟩ <;> rw [h]
    · exact Or.inl rfl
    · exact Or.inr rfl
    · exact Or.inr rfl
  · intro out err hv
    exact job_runs_of_video_ok env vid st out err hv

/-- The descending-by-mtime comparison is transitive. -/
theorem pickLe_trans (fs : FileSystem) :
    ∀ a b c : String,
      (fun a b => decide (mtimeOf fs b ≤ mtimeOf fs a)) a b = true →
      (fun a b => decide (mtimeOf fs b ≤ mtimeOf fs a)) b c = true →
      (fun a b => decide (mtimeOf fs b ≤ mtimeOf fs a)) a c = true := by
  intro a b c hab hbc
  simp only [decide_eq_true_eq] at *
  omega

/-- The descending-by-mtime comparison is total. -/
theorem pickLe_total (fs : FileSystem) :
    ∀ a b : String,
      ((fun a b => decide (mtimeOf fs b ≤ mtimeOf fs a)) a b
        || (fun a b => decide (mtimeOf fs b ≤ mtimeOf fs a)) b a) = true := by
  intro a b
  simp only [Bool.or_eq_true, decide_eq_true_eq]
  omega

/-- The resolver returns nothing exactly when no candidate survives the
exists-and-non-empty filter. -/
theorem pick_none_iff (fs : FileSystem) (paths : List String) :
    _pick_newest_nonempty fs paths = none ↔ ∀ p ∈ paths, isGoodFile fs p = false := by
  unfold _pick_newest_nonempty
  have hperm := List.mergeSort_perm (paths.filter (isGoodFile fs))
    (fun a b => decide (mtimeOf fs b ≤ mtimeOf fs a))
  rcases hms : (paths.filter (isGoodFile fs)).mergeSort
      (fun a b => decide (mtimeOf fs b ≤ mtimeOf fs a)) with _ | ⟨q0, tl⟩
  · rw [hms] at hperm
    simp only [hms]
    constructor
    · intro _ p hp
      by_contra hg
      have : p ∈ paths.filter (isGoodFile fs) := by
        rw [List.mem_filter]
        exact ⟨hp, by revert hg; cases isGoodFile fs p <;> simp⟩
      rw [hperm.symm.eq_nil] at this
      cases this
    · intro _
      trivial
  · rw [hms] at hperm
    simp only [hms]
    constructor
    · intro h
      cases h
    · intro hall
      exfalso
      have hq : q0 ∈ paths.filter (isGoodFile fs) := hperm.subset (List.mem_cons_self q0 tl)
      rw [List.mem_filter] at hq
      rw [hall q0 hq.1] at hq
      cases hq.2

/-- When the resolver returns a path, that path is a surviving candidate
with the most recent modification time among all surviving candidates. -/
theorem pick_spec (fs : FileSystem) (paths : List String) (q : String)
    (h : _pick_newest_nonempty fs paths = some q) :
    q ∈ paths ∧ isGoodFile fs q = true
      ∧ ∀ p ∈ paths, isGoodFile fs p = true → mtimeOf fs p ≤ mtimeOf fs q := by
  unfold _pick_newest_nonempty at h
  have hperm := List.mergeSort_perm (paths.filter (isGoodFile fs))
    (fun a b => decide (mtimeOf fs b ≤ mtimeOf fs a))
  have hsorted := List.sorted_mergeSort (pickLe_trans fs) (pickLe_total fs)
    (paths.filter (isGoodFile fs))
  rcases hms : (paths.filter (isGoodFile fs)).mergeSort
      (fun a b => decide (mtimeOf fs b ≤ mtimeOf fs a)) with _ | ⟨q0, tl⟩
  · rw [hms] at h
    cases h
  · rw [hms] at h
    cases h
    rw [hms] at hperm hsorted
    have hqf : q ∈ paths.filter (isGoodFile fs) := hperm.subset (List.mem_cons_self q tl)
    rw [List.mem_filter] at hqf
    refine ⟨hqf.1, hqf.2, ?_⟩
    intro p hp hgood
    have hpf : p ∈ paths.filter (isGoodFile fs) := by
      rw [List.mem_filter]
      exact ⟨hp, hgood⟩
    rw [← hperm.mem_iff] at hpf
    rcases List.mem_cons.mp hpf with hpq | hptl
    · rw [hpq]
    · have := List.rel_of_pairwise_cons hsorted hptl
      simpa using this

/-- C2: the Output Resolver returns nothing on an empty candidate list and
when every candidate is missing or zero-byte; otherwise it returns an
existing non-empty candidate whose modification time is maximal among the
surviving candidates; in particular over fileA
(`/data/vid.video.webm`, mtime 100, 5000000 bytes) and fileB
(`/data/vid.video.mp4`, mtime 200, 1000 bytes) it returns fileB, the
newer non-empty file. -/
theorem yt_c2_output_resolver (fs : FileSystem) (paths : List String) :
    _pick_newest_nonempty fs [] = none
      ∧ ((∀ p ∈ paths, isGoodFile fs p = false) → _pick_newest_nonempty fs paths = none)
      ∧ (∀ q, _pick_newest_nonempty fs paths = some q →
          q ∈ paths ∧ isGoodFile fs q = true
            ∧ ∀ p ∈ paths, isGoodFile fs p = true → mtimeOf fs p ≤ mtimeOf fs q)
      ∧ ((∃ p ∈ paths, isGoodFile fs p = true) →
          ∃ q, _pick_newest_nonempty fs paths = some q)
      ∧ _pick_newest_nonempty
          (fun p => if p = "/data/vid.video.webm" then some ⟨5000000, 100⟩
                    else if p = "/data/vid.video.mp4" then some ⟨1000, 200⟩ else none)
          ["/data/vid.video.webm", "/data/vid.video.mp4"]
        = some "/data/vid.video.mp4" := by
  refine ⟨?_, ?_, ?_, ?_, ?_⟩
  · rw [pick_none_iff]
    intro p hp
    cases hp
  · intro hall
    rw [pick_none_iff]
    exact hall
  · intro q h
    exact pick_spec fs paths q h
  · intro ⟨p, hp, hgood⟩
    rcases hpick : _pick_newest_nonempty fs paths with _ | q
    · rw [pick_none_iff] at hpick
      rw [hpick p hp] at hgood
      cases hgood
    · exact ⟨q, rfl⟩
  · set fsC : FileSystem :=
      (fun p => if p = "/data/vid.video.webm" then some ⟨5000000, 100⟩
                else if p = "/data/vid.video.mp4" then some ⟨1000, 200⟩ else none) with hfsC
    rcases hpick : _pick_newest_nonempty fsC
        ["/data/vid.video.webm", "/data/vid.video.mp4"] with _ | q
    · rw [pick_none_iff] at hpick
      have := hpick "/data/vid.video.mp4" (by simp)
      rw [hfsC] at this
      simp [isGoodFile] at this
    · have hspec := pick_spec fsC ["/data/vid.video.webm", "/data/vid.video.mp4"] q hpick
      rcases hspec with ⟨hmem, _hgood, hmax⟩
      have hmp4 := hmax "/data/vid.video.mp4" (by simp) (by rw [hfsC]; simp [isGoodFile])
      rcases List.mem_cons.mp hmem with hq | hq
      · exfalso
        rw [hq] at hmp4
        rw [hfsC] at hmp4
        simp [mtimeOf] at hmp4
      · have hq2 : q = "/data/vid.video.mp4" := by simpa using hq
        rw [hq2]

/-! ### Serialization round trip -/

theorem digitChar_facts : ∀ k, k < 10 →
    isDigitCh (digitChar k) = true ∧ digitVal (digitChar k) = k := by decide

theorem hexVal_hexDigitChar : ∀ k, k < 16 → hexVal (hexDigitChar k) = some k := by decide

theorem natDecimalAux_digits (fuel : Nat) :
    ∀ n, n < fuel → ∀ c ∈ natDecimalAux fuel n, isDigitCh c = true := by
  induction fuel with
  | zero => intro n hn; omega
  | succ f ih =>
    intro n hn c hc
    rw [natDecimalAux] at hc
    by_cases h10 : n < 10
    · rw [if_pos h10] at hc
      simp at hc
      rw [hc]
      exact (digitChar_facts n h10).1
    · rw [if_neg h10] at hc
      rcases List.mem_append.mp hc with hc1 | hc2
      · exact ih (n / 10) (by omega) c hc1
      · simp at hc2
        rw [hc2]
        exact (digitChar_facts (n % 10) (Nat.mod_lt _ (by omega))).1

theorem natDecimalAux_ne_nil (fuel n : Nat) (h : 0 < fuel) :
    natDecimalAux fuel n ≠ [] := by
  cases fuel with
  | zero => omega
  | succ f =>
    rw [natDecimalAux]
    by_cases h10 : n < 10
    · rw [if_pos h10]; simp
    · rw [if_neg h10]; simp

theorem natDecimalAux_foldl (fuel : Nat) :
    ∀ n, n < fuel → ∀ acc,
      (natDecimalAux fuel n).foldl (fun a c => a * 10 + digitVal c) acc
        = acc * 10 ^ (natDecimalAux fuel n).length + n := by
  induction fuel with
  | zero => intro n hn; omega
  | succ f ih =>
    intro n hn acc
    rw [natDecimalAux]
    by_cases h10 : n < 10
    · rw [if_pos h10]
      simp [List.foldl, (digitChar_facts n h10).2]
    · rw [if_neg h10]
      rw [List.foldl_append, List.length_append]
      rw [ih (n / 10) (by omega) acc]
      simp [List.foldl, (digitChar_facts (n % 10) (Nat.mod_lt _ (by omega))).2]
      rw [pow_succ]
      have : n = 10 * (n / 10) + n % 10 := (Nat.div_add_mod n 10).symm
      ring_nf
      omega

theorem takeWhile_append_all (p : Char → Bool) (l1 l2 : List Char)
    (h1 : ∀ c ∈ l1, p c = true) (h2 : ∀ c, l2.head? = some c → p c = false) :
    (l1 ++ l2).takeWhile p = l1 ∧ (l1 ++ l2).dropWhile p = l2 := by
  induction l1 with
  | nil =>
    simp only [List.nil_append]
    cases l2 with
    | nil => simp
    | cons c t =>
      have := h2 c rfl
      simp [List.takeWhile_cons, List.dropWhile_cons, this]
  | cons c t ih =>
    have hpc : p c = true := h1 c (by simp)
    have iht := ih (fun d hd => h1 d (by simp [hd]))
    simp [List.takeWhile_cons, List.dropWhile_cons, hpc, iht.1, iht.2]

theorem parseNatNum_natDecimal (n : Nat) (rest : List Char)
    (hrest : ∀ c, rest.head? = some c → isDigitCh c = false) :
    parseNatNum (natDecimal n ++ rest) = some (n, rest) := by
  have hdig : ∀ c ∈ natDecimal n, isDigitCh c = true :=
    natDecimalAux_digits (n + 1) n (by omega)
  have htw := takeWhile_append_all isDigitCh (natDecimal n) rest hdig hrest
  rw [parseNatNum]
  rw [htw.1, htw.2]
  have hne : natDecimal n ≠ [] := natDecimalAux_ne_nil (n + 1) n (by omega)
  rw [if_neg (by simpa [List.isEmpty_iff] using hne)]
  have hf := natDecimalAux_foldl (n + 1) n (by omega) 0
  rw [natDecimal]
  rw [hf]
  simp

theorem parseJInt_encode (n : Int) (rest : List Char)
    (hrest : ∀ c, rest.head? = some c → isDigitCh c = false) :
    parseJInt (encodeJInt n ++ rest) = some (n, rest) := by
  rw [encodeJInt]
  by_cases hneg : n < 0
  · rw [if_pos hneg]
    rw [List.cons_append, parseJInt]
    rw [parseNatNum_natDecimal n.natAbs rest hrest]
    show some (-(n.natAbs : Int), rest) = some (n, rest)
    have h2 : -((n.natAbs : Nat) : Int) = n := by omega
    rw [h2]
  · rw [if_neg hneg]
    rcases hd : natDecimal n.natAbs with _ | ⟨c, t⟩
    · exact absurd hd (natDecimalAux_ne_nil _ _ (by omega))
    · have hcdig : isDigitCh c = true := by
        apply natDecimalAux_digits (n.natAbs + 1) n.natAbs (by omega)
        rw [natDecimal] at hd
        rw [hd]
        simp
      have hcne : c ≠ '-' := by
        intro hc
        rw [hc] at hcdig
        cases hcdig
      have hback : c :: (t ++ rest) = natDecimal n.natAbs ++ rest := by
        rw [hd]
        rfl
      rw [List.cons_append, parseJInt]
      split
      · rename_i x0 m r heq
        rw [hback, parseNatNum_natDecimal n.natAbs rest hrest] at heq
        injection heq with heq2
        injection heq2 with hm hr
        subst hm
        subst hr
        have h2 : ((n.natAbs : Nat) : Int) = n := by omega
        rw [h2]
      · rename_i x0 hnone
        rw [hback, parseNatNum_natDecimal n.natAbs rest hrest] at hnone
        cases hnone
      · intro r2 hr2
        injection hr2 with h1 h2
        exact hcne h1

/-- One-step unfolding of the string-body parser on a cons cell. -/
theorem parseStrBodyF_cons (f : Nat) (c : Char) (l : List Char) :
    parseStrBodyF (f + 1) (c :: l) =
      (if c = '"' then some ([], l)
       else if c = '\\' then
         match l with
         | [] => none
         | e :: rest2 =>
           if e = 'u' then
             match rest2 with
             | h1 :: h2 :: h3 :: h4 :: rest3 =>
               match hexVal h1, hexVal h2, hexVal h3, hexVal h4 with
               | some a, some b, some c2, some d =>
                 match parseStrBodyF f rest3 with
                 | some (s, r) => some (Char.ofNat (((a * 16 + b) * 16 + c2) * 16 + d) :: s, r)
                 | none => none
               | _, _, _, _ => none
             | _ => none
           else
             match unescapeChar e with
             | some u =>
               match parseStrBodyF f rest2 with
               | some (s, r) => some (u :: s, r)
               | none => none
             | none => none
       else
         match parseStrBodyF f l with
         | some (s, r) => some (c :: s, r)
         | none => none) := rfl

/-- The parser on an ordinary (unescaped) character. -/
theorem psb_ord (f : Nat) (c : Char) (l : List Char)
    (h1 : ¬ c = '"') (h2 : ¬ c = '\\') :
    parseStrBodyF (f + 1) (c :: l) =
      match parseStrBodyF f l with
      | some (s, r) => some (c :: s, r)
      | none => none := by
  rw [parseStrBodyF_cons, if_neg h1, if_neg h2]

/-- The parser on a short backslash escape. -/
theorem psb_esc (f : Nat) (e : Char) (l : List Char) (he : ¬ e = 'u') :
    parseStrBodyF (f + 1) ('\\' :: e :: l)
      = match unescapeChar e with
        | some u =>
          match parseStrBodyF f l with
          | some (s, r) => some (u :: s, r)
          | none => none
        | none => none := by
  rw [parseStrBodyF_cons, if_neg (by decide : ¬ (('\\' : Char) = '"')), if_pos rfl]
  show (if e = 'u' then _ else _) = _
  rw [if_neg he]

/-- The parser on a `\uXXXX` escape. -/
theorem psb_hex (f : Nat) (h1 h2 h3 h4 : Char) (l : List Char) :
    parseStrBodyF (f + 1) ('\\' :: 'u' :: h1 :: h2 :: h3 :: h4 :: l)
      = match hexVal h1, hexVal h2, hexVal h3, hexVal h4 with
        | some a, some b, some c2, some d =>
          (match parseStrBodyF f l with
           | some (s, r) => some (Char.ofNat (((a * 16 + b) * 16 + c2) * 16 + d) :: s, r)
           | none => none)
        | _, _, _, _ => none := rfl

/-- The string-body parser inverts the CPython escape encoder: parsing the
escaped body followed by the closing quote recovers the original character
list exactly, for every string and with any remaining input. -/
theorem parseStrBodyF_escape (s : List Char) : ∀ (rest : List Char) (fuel : Nat),
    (escapeList s ++ '"' :: rest).length ≤ fuel →
    parseStrBodyF fuel (escapeList s ++ '"' :: rest) = some (s, rest) := by
  induction s with
  | nil =>
    intro rest fuel hfuel
    rw [show escapeList [] = [] from rfl, List.nil_append] at *
    simp at hfuel
    cases fuel with
    | zero => omega
    | succ f =>
      rw [parseStrBodyF_cons, if_pos rfl]
  | cons c s2 ih =>
    intro rest fuel hfuel
    have hexp : escapeList (c :: s2) = escapeChar c ++ escapeList s2 := by
      simp [escapeList]
    rw [hexp, List.append_assoc] at hfuel ⊢
    by_cases h1 : c = '\\'
    · subst h1
      simp [escapeChar] at hfuel
      cases fuel with
      | zero => omega
      | succ f =>
        have hT : (escapeList s2 ++ '"' :: rest).length ≤ f := by
          simp
          omega
        rw [show escapeChar '\\' ++ (escapeList s2 ++ '"' :: rest)
              = '\\' :: '\\' :: (escapeList s2 ++ '"' :: rest) from rfl]
        rw [psb_esc f '\\' _ (by decide), ih rest f hT]
        rfl
    · by_cases h2 : c = '"'
      · subst h2
        simp [escapeChar] at hfuel
        cases fuel with
        | zero => omega
        | succ f =>
          have hT : (escapeList s2 ++ '"' :: rest).length ≤ f := by
            simp
            omega
          rw [show escapeChar '"' ++ (escapeList s2 ++ '"' :: rest)
                = '\\' :: '"' :: (escapeList s2 ++ '"' :: rest) from rfl]
          rw [psb_esc f '"' _ (by decide), ih rest f hT]
          rfl
      · by_cases h3 : c = '\x08'
        · subst h3
          simp [escapeChar] at hfuel
          cases fuel with
          | zero => omega
          | succ f =>
            have hT : (escapeList s2 ++ '"' :: rest).length ≤ f := by
              simp
              omega
            rw [show escapeChar '\x08' ++ (escapeList s2 ++ '"' :: rest)
                  = '\\' :: 'b' :: (escapeList s2 ++ '"' :: rest) from rfl]
            rw [psb_esc f 'b' _ (by decide), ih rest f hT]
            rfl
        · by_cases h4 : c = '\t'
          · subst h4
            simp [escapeChar] at hfuel
            cases fuel with
            | zero => omega
            | succ f =>
              have hT : (escapeList s2 ++ '"' :: rest).length ≤ f := by
                simp
                omega
              rw [show escapeChar '\t' ++ (escapeList s2 ++ '"' :: rest)
                    = '\\' :: 't' :: (escapeList s2 ++ '"' :: rest) from rfl]
              rw [psb_esc f 't' _ (by decide), ih rest f hT]
              rfl
          · by_cases h5 : c = '\n'
            · subst h5
              simp [escapeChar] at hfuel
              cases fuel with
              | zero => omega
              | succ f =>
                have hT : (escapeList s2 ++ '"' :: rest).length ≤ f := by
                  simp
                  omega
                rw [show escapeChar '\n' ++ (escapeList s2 ++ '"' :: rest)
                      = '\\' :: 'n' :: (escapeList s2 ++ '"' :: rest) from rfl]
                rw [psb_esc f 'n' _ (by decide), ih rest f hT]
                rfl
            · by_cases h6 : c = '\x0c'
              · subst h6
                simp [escapeChar] at hfuel
                cases fuel with
                | zero => omega
                | succ f =>
                  have hT : (escapeList s2 ++ '"' :: rest).length ≤ f := by
                    simp
                    omega
                  rw [show escapeChar '\x0c' ++ (escapeList s2 ++ '"' :: rest)
                        = '\\' :: 'f' :: (escapeList s2 ++ '"' :: rest) from rfl]
                  rw [psb_esc f 'f' _ (by decide), ih rest f hT]
                  rfl
              · by_cases h7 : c = '\r'
                · subst h7
                  simp [escapeChar] at hfuel
                  cases fuel with
                  | zero => omega
                  | succ f =>
                    have hT : (escapeList s2 ++ '"' :: rest).length ≤ f := by
                      simp
                      omega
                    rw [show escapeChar '\r' ++ (escapeList s2 ++ '"' :: rest)
                          = '\\' :: 'r' :: (escapeList s2 ++ '"' :: rest) from rfl]
                    rw [psb_esc f 'r' _ (by decide), ih rest f hT]
                    rfl
                · by_cases hctl : c.toNat < 32
                  · have hesc : escapeChar c =
                        ['\\', 'u', '0', '0',
                         hexDigitChar (c.toNat / 16), hexDigitChar (c.toNat % 16)] := by
                      rw [escapeChar, if_neg h1, if_neg h2, if_neg h3, if_neg h4,
                          if_neg h5, if_neg h6, if_neg h7, if_pos hctl]
                    rw [hesc] at hfuel ⊢
                    simp at hfuel
                    cases fuel with
                    | zero => omega
                    | succ f =>
                      have hT : (escapeList s2 ++ '"' :: rest).length ≤ f := by
                        simp
                        omega
                      rw [show ['\\', 'u', '0', '0', hexDigitChar (c.toNat / 16),
                            hexDigitChar (c.toNat % 16)] ++ (escapeList s2 ++ '"' :: rest)
                            = '\\' :: 'u' :: '0' :: '0' :: hexDigitChar (c.toNat / 16)
                              :: hexDigitChar (c.toNat % 16)
                              :: (escapeList s2 ++ '"' :: rest) from rfl]
                      rw [psb_hex]
                      rw [hexVal_hexDigitChar (c.toNat / 16) (by omega),
                          hexVal_hexDigitChar (c.toNat % 16) (Nat.mod_lt _ (by omega))]
                      rw [ih rest f hT]
                      show some (Char.ofNat (((0 * 16 + 0) * 16 + c.toNat / 16) * 16
                        + c.toNat % 16) :: s2, rest) = some (c :: s2, rest)
                      have hval : ((0 * 16 + 0) * 16 + c.toNat / 16) * 16 + c.toNat % 16
                          = c.toNat := by omega
                      rw [hval, Char.ofNat_toNat]
                  · have hesc : escapeChar c = [c] := by
                      rw [escapeChar, if_neg h1, if_neg h2, if_neg h3, if_neg h4,
                          if_neg h5, if_neg h6, if_neg h7, if_neg hctl]
                    rw [hesc] at hfuel ⊢
                    simp at hfuel
                    cases fuel with
                    | zero => omega
                    | succ f =>
                      have hT : (escapeList s2 ++ '"' :: rest).length ≤ f := by
                        simp
                        omega
                      rw [List.cons_append, List.nil_append]
                      rw [psb_ord f c _ h2 h1, ih rest f hT]

theorem skipWs_colon (l : List Char) : skipWs (':' :: l) = ':' :: l := rfl

theorem skipWs_comma (l : List Char) : skipWs (',' :: l) = ',' :: l := rfl

theorem skipWs_rbrace (l : List Char) : skipWs ('\x7d' :: l) = '\x7d' :: l := rfl

theorem skipWs_space (l : List Char) : skipWs (' ' :: l) = skipWs l := rfl

theorem skipWs_encodeJString (k : String) (T : List Char) :
    skipWs (encodeJString k ++ T) = encodeJString k ++ T := rfl

theorem parseJString_encode (k : String) (tail : List Char) :
    parseJString (encodeJString k ++ tail) = some (k, tail) := by
  rw [encodeJString, List.cons_append, List.append_assoc, List.singleton_append]
  rw [parseJString]
  rw [if_pos rfl]
  rw [parseStrBodyF_escape k.data tail _ (le_refl _)]

theorem digit_head_facts (c : Char) (h : isDigitCh c = true) :
    isJsonWs c = false ∧ ¬ c = '"' := by
  constructor
  · by_contra hws
    have hws2 : isJsonWs c = true := by
      revert hws
      cases isJsonWs c <;> simp
    rw [isJsonWs] at hws2
    rcases Bool.or_eq_true_iff.mp hws2 with h1 | h1
    · rcases Bool.or_eq_true_iff.mp h1 with h2 | h2
      · rcases Bool.or_eq_true_iff.mp h2 with h3 | h3
        · have : c = ' ' := by simpa using h3
          subst this
          revert h
          decide
        · have : c = '\t' := by simpa using h3
          subst this
          revert h
          decide
      · have : c = '\n' := by simpa using h2
        subst this
        revert h
        decide
    · have : c = '\r' := by simpa using h1
      subst this
      revert h
      decide
  · intro he
    subst he
    revert h
    decide

theorem parseJValue_str (sv : String) (rest : List Char) :
    parseJValue (encodeJString sv ++ rest) = some (.vstr sv, rest) := by
  rw [parseJValue]
  rw [skipWs_encodeJString]
  rw [encodeJString, List.cons_append, List.append_assoc, List.singleton_append]
  show (if ('"' : Char) = '"' then _ else _) = _
  rw [if_pos rfl]
  rw [parseStrBodyF_escape sv.data rest _ (le_refl _)]

theorem parseJValue_int (n : Int) (rest : List Char)
    (hrest : ∀ c, rest.head? = some c → isDigitCh c = false) :
    parseJValue (encodeJInt n ++ rest) = some (.vint n, rest) := by
  rcases hE : encodeJInt n with _ | ⟨c0, t0⟩
  · exfalso
    rw [encodeJInt] at hE
    by_cases hneg : n < 0
    · rw [if_pos hneg] at hE
      cases hE
    · rw [if_neg hneg] at hE
      exact natDecimalAux_ne_nil _ _ (by omega) hE
  · have hc0 : isJsonWs c0 = false ∧ ¬ c0 = '"' := by
      rw [encodeJInt] at hE
      by_cases hneg : n < 0
      · rw [if_pos hneg] at hE
        injection hE with h1 h2
        rw [← h1]
        decide
      · rw [if_neg hneg] at hE
        have hd : isDigitCh c0 = true := by
          apply natDecimalAux_digits (n.natAbs + 1) n.natAbs (by omega)
          rw [show natDecimalAux (n.natAbs + 1) n.natAbs = natDecimal n.natAbs from rfl, hE]
          simp
        exact digit_head_facts c0 hd
    rw [List.cons_append, parseJValue]
    rw [show skipWs (c0 :: (t0 ++ rest)) = c0 :: (t0 ++ rest) from by
      rw [skipWs, List.dropWhile_cons, hc0.1]
      simp]
    show (if c0 = '"' then _ else _) = _
    rw [if_neg hc0.2]
    rw [show c0 :: (t0 ++ rest) = encodeJInt n ++ rest from by rw [hE]; rfl]
    rw [parseJInt_encode n rest hrest]

theorem parseJValue_encode (v : JVal) (rest : List Char)
    (hrest : ∀ c, rest.head? = some c → isDigitCh c = false) :
    parseJValue (encodeJVal v ++ rest) = some (v, rest) := by
  cases v with
  | vstr sv => exact parseJValue_str sv rest
  | vint n => exact parseJValue_int n rest hrest

theorem parseJValue_ws (cs : List Char) : parseJValue (' ' :: cs) = parseJValue cs := rfl

theorem parseFieldsF_ws (f : Nat) (cs : List Char) :
    parseFieldsF f (' ' :: cs) = parseFieldsF f cs := by
  cases f with
  | zero => rfl
  | succ f2 => rfl

/-- The field parser inverts the field encoder: parsing the encoded
`", "`-separated fields followed by the closing brace recovers the field
list exactly. -/
theorem parseFieldsF_encode (fl : List (String × JVal)) :
    ∀ (rest : List Char) (fuel : Nat), fl ≠ [] → fl.length ≤ fuel →
      parseFieldsF fuel (encodeFields fl ++ '\x7d' :: rest) = some (fl, rest) := by
  induction fl with
  | nil =>
    intro rest fuel h _
    exact absurd rfl h
  | cons kv fl' ih =>
    rcases kv with ⟨k, v⟩
    intro rest fuel _ hfuel
    cases fuel with
    | zero => simp at hfuel
    | succ f =>
      cases fl' with
      | nil =>
        have hin : encodeFields [(k, v)] ++ '\x7d' :: rest
            = encodeJString k ++ (':' :: ' ' :: (encodeJVal v ++ '\x7d' :: rest)) := by
          rw [encodeFields]
          simp [List.append_assoc]
        rw [hin, parseFieldsF]
        have hs := parseJString_encode k (':' :: ' ' :: (encodeJVal v ++ '\x7d' :: rest))
        have hv : parseJValue (' ' :: (encodeJVal v ++ '\x7d' :: rest))
            = some (v, '\x7d' :: rest) := by
          rw [parseJValue_ws]
          exact parseJValue_encode v ('\x7d' :: rest) (by
            intro c hc
            simp at hc
            subst hc
            decide)
        simp only [skipWs_encodeJString, hs, skipWs_colon, hv, skipWs_rbrace]
        simp
      | cons f2 fl2 =>
        have hin : encodeFields ((k, v) :: f2 :: fl2) ++ '\x7d' :: rest
            = encodeJString k ++ (':' :: ' ' ::
                (encodeJVal v ++ ',' :: ' ' :: (encodeFields (f2 :: fl2) ++ '\x7d' :: rest))) := by
          rw [encodeFields]
          simp [List.append_assoc]
          intro h
          cases h
        rw [hin, parseFieldsF]
        have hs := parseJString_encode k (':' :: ' ' ::
          (encodeJVal v ++ ',' :: ' ' :: (encodeFields (f2 :: fl2) ++ '\x7d' :: rest)))
        have hv : parseJValue (' ' ::
            (encodeJVal v ++ ',' :: ' ' :: (encodeFields (f2 :: fl2) ++ '\x7d' :: rest)))
            = some (v, ',' :: ' ' :: (encodeFields (f2 :: fl2) ++ '\x7d' :: rest)) := by
          rw [parseJValue_ws]
          exact parseJValue_encode v _ (by
            intro c hc
            simp at hc
            subst hc
            decide)
        have hrec : parseFieldsF f (' ' :: (encodeFields (f2 :: fl2) ++ '\x7d' :: rest))
            = some (f2 :: fl2, rest) := by
          rw [parseFieldsF_ws]
          apply ih rest f (List.cons_ne_nil f2 fl2)
          simp at hfuel ⊢
          omega
        simp only [skipWs_encodeJString, hs, skipWs_colon, hv, skipWs_comma, hrec]
        simp

theorem skipWs_lbrace (l : List Char) : skipWs ('\x7b' :: l) = '\x7b' :: l := rfl

theorem encodeFields_head (fl : List (String × JVal)) (hne : fl ≠ []) :
    ∃ t, encodeFields fl = '"' :: t := by
  cases fl with
  | nil => exact absurd rfl hne
  | cons kv fl' =>
    rcases kv with ⟨k, v⟩
    cases fl' with
    | nil =>
      exact ⟨_, by rw [encodeFields, encodeJString, List.cons_append]⟩
    | cons f2 fl2 =>
      exact ⟨_, by
        rw [encodeFields, encodeJString, List.cons_append, List.cons_append]
        intro h
        cases h⟩

theorem encodeFields_length (fl : List (String × JVal)) :
    fl.length ≤ (encodeFields fl).length := by
  induction fl with
  | nil => simp [encodeFields]
  | cons kv fl' ih =>
    rcases kv with ⟨k, v⟩
    cases fl' with
    | nil =>
      rw [encodeFields, encodeJString]
      simp
    | cons f2 fl2 =>
      rw [encodeFields, encodeJString]
      · simp at ih ⊢
        omega
      · intro h
        cases h

/-- The object parser inverts the object encoder for every non-empty field
list. -/
theorem parseObjText_encode (fl : List (String × JVal)) (hne : fl ≠ []) :
    parseObjText (String.mk (encodeObj fl)) = some fl := by
  obtain ⟨t, ht⟩ := encodeFields_head fl hne
  obtain ⟨t2, ht2⟩ : ∃ t2, encodeFields fl ++ ['\x7d'] = '"' :: t2 :=
    ⟨t ++ ['\x7d'], by rw [ht, List.cons_append]⟩
  have hlen : fl.length ≤ ('"' :: t2).length + 1 := by
    have h1 := encodeFields_length fl
    have h2 := congrArg List.length ht2
    simp at h2
    simp
    omega
  have hpf : parseFieldsF (('"' :: t2).length + 1) ('"' :: t2) = some (fl, []) := by
    rw [← ht2]
    exact parseFieldsF_encode fl [] _ hne (by
      rw [ht2]
      exact hlen)
  rw [parseObjText]
  rw [show (String.mk (encodeObj fl)).data
        = '\x7b' :: (encodeFields fl ++ ['\x7d']) from rfl]
  rw [skipWs_lbrace]
  show (if ('\x7b' : Char) = '\x7b' then _ else _) = _
  rw [if_pos rfl]
  rw [ht2]
  rw [show skipWs ('"' :: t2) = '"' :: t2 from rfl]
  show (if ('"' : Char) = '\x7d' then _ else _) = _
  rw [if_neg (by decide)]
  rw [hpf]
  rfl

theorem payloadFields_ne_nil (p : MediaPayload) : payloadFields p ≠ [] := by
  simp [payloadFields]

theorem encodePayload_ne_empty (p : MediaPayload) : encodePayload p ≠ "" := by
  rw [encodePayload]
  intro h
  have h2 := congrArg String.data h
  rw [show (String.mk (encodeObj (payloadFields p))).data
        = encodeObj (payloadFields p) from rfl] at h2
  rw [encodeObj] at h2
  cases h2

/-- The metadata round trip at the wire level: `store_media` serializes the
payload into the media key and `get_media` parses the same bytes back into
exactly the stored field list. -/
theorem payload_roundtrip (vid : String) (p : MediaPayload) (st : Store) :
    get_media (store_media vid p st) vid = some (payloadFields p) := by
  rw [get_media, store_media]
  rw [show (Store.set st (k_media vid) (encodePayload p)) (k_media vid)
        = some (encodePayload p) from by simp [Store.set]]
  show (if encodePayload p = "" then none else parseObjText (encodePayload p)) = _
  rw [if_neg (encodePayload_ne_empty p)]
  rw [encodePayload]
  exact parseObjText_encode (payloadFields p) (payloadFields_ne_nil p)

/-- C7: for every identifier and every metadata record (string id, URL and
paths, integer timestamp), `store_media` followed by `get_media` returns a
record equal to the original in all fields — proved through the actual
serialized representation (the CPython `json.dumps` text, reparsed). -/
theorem yt_c7_metadata_roundtrip (vid : String) (p : MediaPayload) (st : Store) :
    get_media (store_media vid p st) vid = some (payloadFields p)
      ∧ List.lookup "video_id" (payloadFields p) = some (.vstr p.video_id)
      ∧ List.lookup "watch_url" (payloadFields p) = some (.vstr p.watch_url)
      ∧ List.lookup "video_path" (payloadFields p) = some (.vstr p.video_path)
      ∧ List.lookup "audio_path" (payloadFields p) = some (.vstr p.audio_path)
      ∧ List.lookup "updated_at" (payloadFields p) = some (.vint p.updated_at) := by
  refine ⟨payload_roundtrip vid p st, rfl, rfl, rfl, rfl, rfl⟩

/-- C6: when the metadata record for an identifier is present with truthy
`video_path` and `audio_path` fields, `ensure_cache_request` returns the
empty handle, leaves the store exactly as it was, and performs no
operation beyond the single metadata read — no lock attempt, no enqueue,
no write — so repeated calls are idempotent. -/
theorem yt_c6_ready_is_noop (jobId vid : String) (st : Store)
    (hready : mediaReady st vid = true) :
    ensure_cache_request jobId vid st = ⟨"", st, [KvOp.getOp (k_media vid)]⟩ := by
  rw [ensure_cache_request, if_pos hready]

/-- C6 witness: a store holding a published record with both paths. -/
theorem yt_c6_ready_is_noop_witness :
    ensure_cache_request "job-2" "abc12345678"
        (store_media "abc12345678"
          ⟨"abc12345678", "https://www.youtube.com/watch?v=abc12345678",
           "/data/abc12345678.video.mp4", "/data/abc12345678.audio.m4a", 1700000000⟩
          (fun _ => none))
      = ⟨"", store_media "abc12345678"
          ⟨"abc12345678", "https://www.youtube.com/watch?v=abc12345678",
           "/data/abc12345678.video.mp4", "/data/abc12345678.audio.m4a", 1700000000⟩
          (fun _ => none),
         [KvOp.getOp (k_media "abc12345678")]⟩ :=
  yt_c6_ready_is_noop "job-2" "abc12345678" _ (by
    rw [mediaReady, payload_roundtrip]
    rfl)

/-! ### Claim C1: one winner among concurrent callers -/

/-- The readiness check reads only the media key. -/
theorem mediaReady_congr (st1 st2 : Store) (vid : String)
    (h : st1 (k_media vid) = st2 (k_media vid)) :
    mediaReady st1 vid = mediaReady st2 vid := by
  rw [mediaReady, mediaReady, get_media, get_media, h]

/-- The invariant holds initially when the lock is absent. -/
theorem ensureInv_init (vid : String) (n : Nat) (jobIds : Fin n → String) (st0 : Store)
    (hlock : st0 (mainLockKey vid) = none) :
    EnsureInv vid jobIds st0 (initSys n st0) := by
  refine ⟨rfl, ?_, ?_, ?_, ?_, ?_, ?_, ?_⟩
  · intro _ i
    rfl
  · intro h
    exact absurd hlock h
  · intro i j hi _
    cases hi
  · intro i _
    refine ⟨?_, ?_, ?_⟩ <;> intro h <;> cases h
  · intro i hw
    cases hw
  · left
    exact ⟨rfl, fun i ⟨hw, _⟩ => by cases hw⟩
  · intro i hd
    cases hd

/-- The invariant is preserved by every atomic step, provided the initial
store had no ready record. -/
theorem ensureInv_step (vid : String) {n : Nat} (jobIds : Fin n → String) (st0 : Store)
    (hready0 : mediaReady st0 vid = false)
    (s s2 : SysSt n) (hInv : EnsureInv vid jobIds st0 s)
    (hstep : EnsureStep vid jobIds s s2) :
    EnsureInv vid jobIds st0 s2 := by
  obtain ⟨hA, hB, hC, hD, hE, hF, hG, hH⟩ := hInv
  have hmr : mediaReady s.store vid = false := by
    rw [mediaReady_congr s.store st0 vid hA]
    exact hready0
  cases hstep with
  | checkReady i hpc hr =>
    rw [hmr] at hr
    cases hr
  | checkNotReady i hpc hr =>
    have hwi : (s.callers i).won = false := by
      by_cases hw : (s.callers i).won = true
      · rcases (hF i hw).1 with h | h | h <;> rw [hpc] at h <;> cases h
      · revert hw
        cases (s.callers i).won <;> simp
    dsimp only [EnsureInv]
    refine ⟨hA, ?_, ?_, ?_, ?_, ?_, ?_, ?_⟩
    · intro hl j
      by_cases hj : j = i
      · subst hj
        simp [Function.update_apply]
        exact hB hl j
      · simp [Function.update_apply, hj]
        exact hB hl j
    · intro hl
      obtain ⟨j, hj⟩ := hC hl
      by_cases hji : j = i
      · subst hji
        exact ⟨j, by simp [Function.update_apply, hj]⟩
      · exact ⟨j, by simp [Function.update_apply, hji, hj]⟩
    · intro j k hj hk
      by_cases hji : j = i <;> by_cases hki : k = i <;>
        simp [Function.update_apply, hji, hki] at hj hk
      · rw [hji, hki]
      · exact absurd hj (by rw [hwi]; simp)
      · exact absurd hk (by rw [hwi]; simp)
      · exact hD j k hj hk
    · intro j hjw
      by_cases hji : j = i
      · subst hji
        simp [Function.update_apply]
      · simp [Function.update_apply, hji] at hjw ⊢
        exact hE j hjw
    · intro j hjw
      by_cases hji : j = i
      · subst hji
        simp [Function.update_apply] at hjw
        rw [hjw] at hwi
        cases hwi
      · simp [Function.update_apply, hji] at hjw ⊢
        exact hF j hjw
    · rcases hG with ⟨hq, hall⟩ | ⟨w, hw, hwpc, hq⟩
      · left
        refine ⟨hq, ?_⟩
        intro j ⟨hjw, hjpc⟩
        by_cases hji : j = i
        · subst hji
          simp [Function.update_apply] at hjpc
        · simp [Function.update_apply, hji] at hjw hjpc
          exact hall j ⟨hjw, hjpc⟩
      · right
        have hwi2 : w ≠ i := by
          intro hwe
          subst hwe
          rcases hwpc with h | h <;> rw [hpc] at h <;> cases h
        exact ⟨w, by simp [Function.update_apply, hwi2, hw], by
          simp [Function.update_apply, hwi2]
          exact hwpc, hq⟩
    · intro j hjd hjw
      by_cases hji : j = i
      · subst hji
        simp [Function.update_apply] at hjd
      · simp [Function.update_apply, hji] at hjd hjw
        exact hH j hjd hjw
  | lockWin i hpc hlock =>
    have hsetl : (s.store.set (mainLockKey vid) "1") (mainLockKey vid) = some "1" := by
      simp [Store.set]
    dsimp only [EnsureInv]
    refine ⟨?_, ?_, ?_, ?_, ?_, ?_, ?_, ?_⟩
    · rw [show (s.store.set (mainLockKey vid) "1") (k_media vid) = s.store (k_media vid) from by
        simp [Store.set, k_media_ne_mainLockKey vid]]
      exact hA
    · intro hl
      rw [hsetl] at hl
      cases hl
    · intro _
      exact ⟨i, by simp [Function.update_apply]⟩
    · intro j k hj hk
      by_cases hji : j = i <;> by_cases hki : k = i <;>
        simp [Function.update_apply, hji, hki] at hj hk
      · rw [hji, hki]
      · exact absurd hk (by rw [hB hlock k]; simp)
      · exact absurd hj (by rw [hB hlock j]; simp)
      · exact absurd hj (by rw [hB hlock j]; simp)
    · intro j hjw
      by_cases hji : j = i
      · subst hji
        simp [Function.update_apply] at hjw
      · simp [Function.update_apply, hji] at hjw ⊢
        exact hE j hjw
    · intro j hjw
      by_cases hji : j = i
      · subst hji
        simp [Function.update_apply]
      · simp [Function.update_apply, hji] at hjw
        rw [hB hlock j] at hjw
        cases hjw
    · left
      constructor
      · rcases hG with ⟨hq, _⟩ | ⟨w, hw, _, _⟩
        · exact hq
        · rw [hB hlock w] at hw
          cases hw
      · intro j ⟨hjw, hjpc⟩
        by_cases hji : j = i
        · subst hji
          simp [Function.update_apply] at hjpc
        · simp [Function.update_apply, hji] at hjw
          rw [hB hlock j] at hjw
          cases hjw
    · intro j _ _
      rw [hsetl]
      simp
  | lockLose i v hpc hlock =>
    have hwi : (s.callers i).won = false := by
      by_cases hw : (s.callers i).won = true
      · rcases (hF i hw).1 with h | h | h <;> rw [hpc] at h <;> cases h
      · revert hw
        cases (s.callers i).won <;> simp
    dsimp only [EnsureInv]
    refine ⟨hA, ?_, ?_, ?_, ?_, ?_, ?_, ?_⟩
    · intro hl
      rw [hlock] at hl
      cases hl
    · intro hl
      obtain ⟨j, hj⟩ := hC hl
      have hji : j ≠ i := by
        intro he
        subst he
        rcases (hF j hj).1 with h | h | h <;> rw [hpc] at h <;> cases h
      exact ⟨j, by simp [Function.update_apply, hji, hj]⟩
    · intro j k hj hk
      by_cases hji : j = i <;> by_cases hki : k = i <;>
        simp [Function.update_apply, hji, hki] at hj hk
      · rw [hji, hki]
      · exact absurd hj (by rw [hwi]; simp)
      · exact absurd hk (by rw [hwi]; simp)
      · exact hD j k hj hk
    · intro j hjw
      by_cases hji : j = i
      · subst hji
        simp [Function.update_apply]
      · simp [Function.update_apply, hji] at hjw ⊢
        exact hE j hjw
    · intro j hjw
      by_cases hji : j = i
      · subst hji
        simp [Function.update_apply] at hjw
        rw [hjw] at hwi
        cases hwi
      · simp [Function.update_apply, hji] at hjw ⊢
        exact hF j hjw
    · rcases hG with ⟨hq, hall⟩ | ⟨w, hw, hwpc, hq⟩
      · left
        refine ⟨hq, ?_⟩
        intro j ⟨hjw, hjpc⟩
        by_cases hji : j = i
        · subst hji
          simp [Function.update_apply] at hjw
          rw [hjw] at hwi
          cases hwi
        · simp [Function.update_apply, hji] at hjw hjpc
          exact hall j ⟨hjw, hjpc⟩
      · right
        have hwi2 : w ≠ i := by
          intro hwe
          subst hwe
          rcases hwpc with h | h <;> rw [hpc] at h <;> cases h
        exact ⟨w, by simp [Function.update_apply, hwi2, hw], by
          simp [Function.update_apply, hwi2]
          exact hwpc, hq⟩
    · intro j _ _
      rw [hlock]
      simp
  | enqueue i hpc =>
    have hwi : (s.callers i).won = true := by
      by_cases hw : (s.callers i).won = true
      · exact hw
      · have hw2 : (s.callers i).won = false := by
          revert hw
          cases (s.callers i).won <;> simp
        exact absurd hpc (hE i hw2).1
    dsimp only [EnsureInv]
    refine ⟨hA, ?_, ?_, ?_, ?_, ?_, ?_, ?_⟩
    · intro hl
      have := hB hl i
      rw [hwi] at this
      cases this
    · intro hl
      obtain ⟨j, hj⟩ := hC hl
      by_cases hji : j = i
      · subst hji
        exact ⟨j, by simp [Function.update_apply, hj]⟩
      · exact ⟨j, by simp [Function.update_apply, hji, hj]⟩
    · intro j k hj hk
      by_cases hji : j = i <;> by_cases hki : k = i <;>
        simp [Function.update_apply, hji, hki] at hj hk
      · rw [hji, hki]
      · exact hD j k (by rw [hji, hwi]) hk
      · exact hD j k hj (by rw [hki, hwi])
      · exact hD j k hj hk
    · intro j hjw
      by_cases hji : j = i
      · subst hji
        simp [Function.update_apply] at hjw
        rw [hjw] at hwi
        cases hwi
      · simp [Function.update_apply, hji] at hjw ⊢
        exact hE j hjw
    · intro j hjw
      by_cases hji : j = i
      · subst hji
        simp [Function.update_apply]
      · simp [Function.update_apply, hji] at hjw ⊢
        exact hF j hjw
    · right
      have hqnil : s.queue = [] := by
        rcases hG with ⟨hq, _⟩ | ⟨w, hw, hwpc, _⟩
        · exact hq
        · have hwe : w = i := hD w i hw hwi
          subst hwe
          rcases hwpc with h | h <;> rw [hpc] at h <;> cases h
      refine ⟨i, by simp [Function.update_apply, hwi], by simp [Function.update_apply], ?_⟩
      rw [hqnil]
      rfl
    · intro j hjd hjw
      by_cases hji : j = i
      · subst hji
        simp [Function.update_apply] at hjd
      · simp [Function.update_apply, hji] at hjd hjw
        exact hH j hjd hjw
  | finish i hpc =>
    have hwi : (s.callers i).won = true := by
      by_cases hw : (s.callers i).won = true
      · exact hw
      · have hw2 : (s.callers i).won = false := by
          revert hw
          cases (s.callers i).won <;> simp
        exact absurd hpc (hE i hw2).2.1
    have hsl : (s.store.set (k_last_job vid) (jobIds i)) (mainLockKey vid)
        = s.store (mainLockKey vid) := by
      simp [Store.set, mainLockKey_ne_k_last_job vid]
    dsimp only [EnsureInv]
    refine ⟨?_, ?_, ?_, ?_, ?_, ?_, ?_, ?_⟩
    · rw [show (s.store.set (k_last_job vid) (jobIds i)) (k_media vid)
          = s.store (k_media vid) from by
        simp [Store.set, k_media_ne_k_last_job vid]]
      exact hA
    · intro hl
      rw [hsl] at hl
      have := hB hl i
      rw [hwi] at this
      cases this
    · intro hl
      rw [hsl] at hl
      obtain ⟨j, hj⟩ := hC hl
      by_cases hji : j = i
      · subst hji
        exact ⟨j, by simp [Function.update_apply, hj]⟩
      · exact ⟨j, by simp [Function.update_apply, hji, hj]⟩
    · intro j k hj hk
      by_cases hji : j = i <;> by_cases hki : k = i <;>
        simp [Function.update_apply, hji, hki] at hj hk
      · rw [hji, hki]
      · exact hD j k (by rw [hji, hwi]) hk
      · exact hD j k hj (by rw [hki, hwi])
      · exact hD j k hj hk
    · intro j hjw
      by_cases hji : j = i
      · subst hji
        simp [Function.update_apply] at hjw
        rw [hjw] at hwi
        cases hwi
      · simp [Function.update_apply, hji] at hjw ⊢
        exact hE j hjw
    · intro j hjw
      by_cases hji : j = i
      · subst hji
        simp [Function.update_apply]
      · simp [Function.update_apply, hji] at hjw ⊢
        exact hF j hjw
    · right
      have hqi : s.queue = [i] := by
        rcases hG with ⟨_, hall⟩ | ⟨w, hw, hwpc, hq⟩
        · exact absurd ⟨hwi, Or.inl hpc⟩ (hall i)
        · have hwe : w = i := hD w i hw hwi
          subst hwe
          exact hq
      exact ⟨i, by simp [Function.update_apply, hwi], by simp [Function.update_apply], hqi⟩
    · intro j hjd hjw
      by_cases hji : j = i
      · subst hji
        simp [Function.update_apply] at hjw
        rw [hjw] at hwi
        cases hwi
      · simp [Function.update_apply, hji] at hjd hjw
        rw [hsl]
        exact hH j hjd hjw

/-- The invariant holds in every reachable state. -/
theorem ensureInv_reach (vid : String) {n : Nat} (jobIds : Fin n → String) (st0 : Store)
    (hlock : st0 (mainLockKey vid) = none) (hready0 : mediaReady st0 vid = false)
    (s : SysSt n) (hreach : ReachEnsure vid jobIds (initSys n st0) s) :
    EnsureInv vid jobIds st0 s := by
  induction hreach with
  | refl => exact ensureInv_init vid n jobIds st0 hlock
  | tail hr hstep ih => exact ensureInv_step vid jobIds st0 hready0 _ _ ih hstep

/-- C1: when N callers run `ensure_cache_request` concurrently for the
same identifier over a store with no ready metadata record and no lock —
interleaving their atomic operations in any order — and all of them
finish, then exactly one caller's atomic conditional set of the lock key
succeeded, exactly one job was submitted to the queue (by that caller),
that caller returns its job id, and every other caller returns the empty
handle having submitted nothing.  The window covers the lock epoch: no
step releases the lock or writes the record. -/
theorem yt_c1_exactly_one_winner {n : Nat} (hn : 0 < n) (vid : String)
    (jobIds : Fin n → String) (st0 : Store)
    (hlock : st0 (mainLockKey vid) = none) (hready0 : mediaReady st0 vid = false)
    (s : SysSt n) (hreach : ReachEnsure vid jobIds (initSys n st0) s)
    (hdone : ∀ i, (s.callers i).pc = .pDone) :
    ∃ w : Fin n, (s.callers w).won = true
      ∧ s.queue = [w]
      ∧ (s.callers w).ret = jobIds w
      ∧ ∀ j, j ≠ w → (s.callers j).won = false ∧ (s.callers j).ret = "" := by
  obtain ⟨hA, hB, hC, hD, hE, hF, hG, hH⟩ :=
    ensureInv_reach vid jobIds st0 hlock hready0 s hreach
  have hexw : ∃ w, (s.callers w).won = true := by
    by_cases hany : ∃ w, (s.callers w).won = true
    · exact hany
    · exfalso
      have i0 : Fin n := ⟨0, hn⟩
      have h1 : (s.callers i0).won = false := by
        by_cases h : (s.callers i0).won = true
        · exact absurd ⟨i0, h⟩ hany
        · revert h
          cases (s.callers i0).won <;> simp
      exact hany (hC (hH i0 (hdone i0) h1))
  obtain ⟨w, hw⟩ := hexw
  have hqw : s.queue = [w] := by
    rcases hG with ⟨_, hall⟩ | ⟨w2, hw2, _, hq2⟩
    · exact absurd ⟨hw, Or.inr (hdone w)⟩ (hall w)
    · rw [hD w2 w hw2 hw] at hq2
      exact hq2
  refine ⟨w, hw, hqw, (hF w hw).2 (hdone w), ?_⟩
  intro j hj
  have hjw : (s.callers j).won = false := by
    by_cases h : (s.callers j).won = true
    · exact absurd (hD j w h hw) hj
    · revert h
      cases (s.callers j).won <;> simp
  exact ⟨hjw, (hE j hjw).2.2 (hdone j)⟩

/-- C1 witness: a concrete interleaved run of two callers for the
identifier `abc12345678` over an empty store — both read the record, then
caller 0 wins the conditional set, caller 1 loses it and returns the empty
handle, and caller 0 enqueues its job and finishes — with the theorem
applied to that run. -/
theorem yt_c1_exactly_one_winner_witness :
    ∃ s : SysSt 2,
      ReachEnsure "abc12345678" (fun i => if i.val = 0 then "job-a" else "job-b")
        (initSys 2 (fun _ => none)) s
      ∧ (∀ i, (s.callers i).pc = .pDone)
      ∧ ∃ w : Fin 2, (s.callers w).won = true
          ∧ s.queue = [w]
          ∧ (s.callers w).ret = (fun i : Fin 2 => if i.val = 0 then "job-a" else "job-b") w
          ∧ ∀ j, j ≠ w → (s.callers j).won = false ∧ (s.callers j).ret = "" := by
  have t1 : EnsureStep "abc12345678" (fun i : Fin 2 => if i.val = 0 then "job-a" else "job-b")
      (initSys 2 (fun _ => none)) _ :=
    EnsureStep.checkNotReady (initSys 2 (fun _ => none)) 0 (by decide) (by decide)
  have r1 := Relation.ReflTransGen.single t1
  have r2 := r1.tail (EnsureStep.checkNotReady _ 1 (by decide) (by decide))
  have r3 := r2.tail (EnsureStep.lockWin _ 0 (by decide) (by decide))
  have r4 := r3.tail (EnsureStep.lockLose _ 1 "1" (by decide) (by decide))
  have r5 := r4.tail (EnsureStep.enqueue _ 0 (by decide))
  have r6 := r5.tail (EnsureStep.finish _ 0 (by decide))
  exact ⟨_, r6, by intro i; fin_cases i <;> decide,
    yt_c1_exactly_one_winner (by decide) "abc12345678" _ _ rfl (by decide) _ r6
      (by intro i; fin_cases i <;> decide)⟩
